import Mathlib

/-!
Verification of the YAML-to-SDF schema compiler of the kairos-yaml repository
(file `sdf/yaml2sdf.py`).

The Python source is shallowly embedded as follows.
* Pure string helpers (`get_step_type`, `get_slot_role`, `get_slot_name`,
  `get_slot_constraints`, `get_step_id`) become Lean functions on `String`.
* The mutable per-schema state (the slot counter `schema_slot_counter`, the
  entity map `entity_map`, the supply of `random.random()` values, and the
  warning log) becomes an explicit `ConvState` record threaded through the
  pipeline.  `random.random()` is modelled by an explicit supply
  `rng : Nat → String` read at a strictly increasing index, mirroring the
  successive values the Python RNG produces.
* The uncaught `IndexError` raised by `get_slot_name` on a role without word
  characters, and the `exit(1)` after reporting missing order references,
  become the two constructors of `ConvErr`; `convert_yaml_to_sdf` returns
  `Except ConvErr SDFSchema`.
* Python dictionaries (insertion ordered, 3.7+) are association lists with
  insert-or-overwrite-in-place (`pyInsert`), delete (`pyDelete`) and lookup
  (`pyLookup`).
* Character predicates (`str.isupper`, `str.lower`, whitespace for
  `str.lstrip`/`str.split`) use Lean's ASCII `Char.isUpper`, `Char.toLower`,
  `Char.isWhitespace`, which agree with Python on ASCII input.
* The ontology (`ontology.json`, loaded by `get_ontology`) is consulted by the
  source only to emit non-fatal `logging.warning` diagnostics; those lookups
  affect no returned value and are elided here.
-/

/-- Python `str.strip(chars)`: remove the maximal leading and trailing runs of
characters belonging to `cut` (a character *set*, not a suffix). -/
def pyStripChars (cut : List Char) (l : List Char) : List Char :=
  ((l.dropWhile (fun c => decide (c ∈ cut))).reverse.dropWhile
    (fun c => decide (c ∈ cut))).reverse

/-- First maximal run of non-whitespace characters; `str.split()[0]` succeeds
exactly when this is nonempty (`str.lstrip()` is subsumed: `split()` ignores
leading whitespace). -/
def firstWord (l : List Char) : List Char :=
  (l.dropWhile Char.isWhitespace).takeWhile (fun c => !c.isWhitespace)

/-- Python `str.split(".")` on the character list: splits at every dot,
keeping empty segments; `splitDots [] = [[]]` matches `"".split(".") == [""]`. -/
def splitDots : List Char → List (List Char)
  | [] => [[]]
  | c :: rest =>
    if c = '.' then [] :: splitDots rest
    else
      match splitDots rest with
      | [] => [[c]]
      | w :: r => (c :: w) :: r

/-- Python `".".join(segments)` on character lists. -/
def joinDots : List (List Char) → List Char
  | [] => []
  | [w] => w
  | w :: ws => w ++ '.' :: joinDots ws

/-- Python `str.replace("-", " ")` (single-character pattern, so a plain map). -/
def replaceDash (s : String) : String :=
  String.mk (s.data.map (fun c => if c = '-' then ' ' else c))

/-- Python dict assignment `m[k] = v`: overwrite in place if the key exists,
else append (Python 3.7+ dicts preserve insertion order). -/
def pyInsert {α : Type} : List (String × α) → String → α → List (String × α)
  | [], k, v => [(k, v)]
  | (k0, v0) :: rest, k, v =>
    if k0 = k then (k0, v) :: rest else (k0, v0) :: pyInsert rest k v

/-- Python `del m[k]` (a dict holds each key at most once). -/
def pyDelete {α : Type} : List (String × α) → String → List (String × α)
  | [], _ => []
  | (k0, v0) :: rest, k =>
    if k0 = k then rest else (k0, v0) :: pyDelete rest k

/-- Python dict read `m[k]`, as an `Option`. -/
def pyLookup {α : Type} : List (String × α) → String → Option α
  | [], _ => none
  | (k0, v0) :: rest, k => if k0 = k then some v0 else pyLookup rest k

/-! ## Authored data model (`yaml_schema.py`) -/

/-- `yaml_schema.Slot`. -/
structure Slot where
  role : String
  refvar : Option String := none
  constraints : Option (List String) := none
  reference : Option String := none
  comment : Option String := none
deriving DecidableEq

/-- `yaml_schema.Step`. -/
structure Step where
  id : String
  primitive : String
  comment : Option String := none
  slots : List Slot := []
deriving DecidableEq

/-- `yaml_schema.Order` with its subclasses `Before`, `Container`, `Overlaps`,
modelled as a tagged union (pydantic parses `order` entries into exactly one
of the three). -/
inductive OrderRel where
  | before (comment : Option String) (b a : String)
  | container (comment : Option String) (c d : String)
  | overlaps (comment : Option String) (l : List String)
deriving DecidableEq

/-- `yaml_schema.Schema`. -/
structure Schema where
  schema_id : String
  schema_name : String := ""
  schema_dscpt : String := ""
  schema_version : String := ""
  slots : List Slot := []
  steps : List Step := []
  order : List OrderRel := []
  comment : Option String := none
deriving DecidableEq

/-! ## Canonical (SDF) output model -/

/-- One canonical slot dictionary as built by `create_slot`; optional fields
are `none` when the Python dict omits the key.  Schema-level slots have their
`role` key renamed to `roleName` by `convert_yaml_to_sdf`. -/
structure SDFSlot where
  name : String
  id : String
  role : Option String := none
  roleName : Option String := none
  entityTypes : Option (List String) := none
  reference : Option String := none
  refvar : Option String := none
  comment : Option String := none
deriving DecidableEq

/-- One canonical step dictionary (`cur_step`). -/
structure SDFStep where
  id : String
  name : String
  type : String
  comment : String
  participants : List SDFSlot
deriving DecidableEq

/-- One resolved order relation. -/
inductive SDFOrder where
  | before (comment b a : String)
  | container (comment c d : String)
  | overlaps (comment : String) (l : List String)
deriving DecidableEq

/-- The canonical schema dictionary returned by `convert_yaml_to_sdf`. -/
structure SDFSchema where
  id : String
  comment : List String
  super : String
  name : String
  description : String
  version : String
  steps : List SDFStep
  order : List SDFOrder
  entityRelations : List String
  slots : List SDFSlot
deriving DecidableEq

/-- Abnormal terminations of `convert_yaml_to_sdf`:
`indexError` is the uncaught `IndexError` from `get_slot_name`
(`name.split()[0]` on an empty word list, propagated out of the process);
`missingSteps msgs` is the `exit(1)` taken after logging one
`logging.error` line per step id referenced in `order` but not declared. -/
inductive ConvErr where
  | indexError
  | missingSteps (msgs : List String)
deriving DecidableEq

/-- The mutable state of one schema compilation: `schema_slot_counter`,
`entity_map`, the index of the next `random.random()` draw, and the
accumulated `logging.warning` messages. -/
structure ConvState where
  counter : String → Nat
  entityMap : List (String × String)
  rngIdx : Nat
  warnings : List String

/-! ## Source functions (`yaml2sdf.py`) -/

/-- `get_step_type`: split the primitive on `.`, right-pad with
`"Unspecified"` to 3 segments, rejoin, prefix.  (The ontology membership
test in the source only logs a warning.) -/
def get_step_type (step : Step) : String :=
  let segs := splitDots step.primitive.data
  let segs :=
    if segs.length < 3 then segs ++ List.replicate (3 - segs.length) "Unspecified".data
    else segs
  "kairos:Primitives/Events/" ++ String.mk (joinDots segs)

/-- `get_slot_role`.  (The ontology argument check in the source only logs a
warning.) -/
def get_slot_role (slot : Slot) (step_type : String) : String :=
  step_type ++ "/Slots/" ++ slot.role

/-- `get_slot_name`: insert a space before every uppercase character, take the
first whitespace-delimited word, lowercase it; when the slot is shared and has
a refvar, append `-{refvar}`.  Returns `none` exactly when the Python code
raises `IndexError` (`name.split()` is empty). -/
def get_slot_name (slot : Slot) (slot_shared : Bool) : Option String :=
  let expanded := slot.role.data.flatMap (fun c => if c.isUpper then [' ', c] else [c])
  match firstWord expanded with
  | [] => none
  | w =>
    let name := String.mk (w.map Char.toLower)
    some (if slot_shared then
            match slot.refvar with
            | some r => name ++ "-" ++ r
            | none => name
          else name)

/-- Increment a counter at one key (`schema_slot_counter[name] += 1`). -/
def bump (cnt : String → Nat) (n : String) : String → Nat :=
  fun m => if m = n then cnt n + 1 else cnt m

/-- The slot id synthesized by `get_slot_id`:
`f"{schema_id}/Slots/{slot_name}-{chr(counter + 97)}"`. -/
def mkSlotId (schema_id name : String) (k : Nat) : String :=
  schema_id ++ "/Slots/" ++ name ++ "-" ++ String.singleton (Char.ofNat (k + 97))

/-- `get_slot_id`: reads the counter at the derived name, builds the id with
disambiguator `chr(counter + 97)`, and increments the counter.  `none` when
`get_slot_name` raises. -/
def get_slot_id (slot : Slot) (counter : String → Nat) (schema_id : String)
    (slot_shared : Bool) : Option (String × (String → Nat)) :=
  match get_slot_name slot slot_shared with
  | none => none
  | some slot_name =>
    some (mkSlotId schema_id slot_name (counter slot_name), bump counter slot_name)

/-- `get_slot_constraints` (ontology membership again only logs warnings). -/
def get_slot_constraints (constraints : List String) : List String :=
  constraints.map (fun entity => "kairos:Primitives/Entities/" ++ entity)

/-- The slot record built by `create_slot` before the entity-map bookkeeping:
`{name, @id, role, entityTypes?, reference?, refvar?, comment?}` with
`entityTypes` present only when the constraint list is nonempty. -/
def mkSDFSlot (schema_id step_type : String) (sl : Slot) (name : String) (k : Nat) :
    SDFSlot :=
  { name := name
    id := mkSlotId schema_id name k
    role := some (get_slot_role sl step_type)
    entityTypes :=
      if (get_slot_constraints (sl.constraints.getD [])).isEmpty then none
      else some (get_slot_constraints (sl.constraints.getD []))
    reference := sl.reference
    refvar := sl.refvar
    comment := sl.comment }

/-- `create_slot`: build the canonical slot, then record the entity-map entry —
the refvar when present, otherwise the next `random.random()` value together
with a `logging.warning` that the slot misses its refvar. -/
def create_slot (rng : Nat → String) (slot : Slot) (st : ConvState)
    (schema_id step_type : String) (slot_shared : Bool) :
    Option (SDFSlot × ConvState) :=
  match get_slot_name slot slot_shared,
        get_slot_id slot st.counter schema_id slot_shared with
  | some name, some (slotId, counter') =>
    some (mkSDFSlot schema_id step_type slot name (st.counter name),
      match slot.refvar with
      | some r =>
        { counter := counter'
          entityMap := pyInsert st.entityMap slotId r
          rngIdx := st.rngIdx
          warnings := st.warnings }
      | none =>
        { counter := counter'
          entityMap := pyInsert st.entityMap slotId (rng st.rngIdx)
          rngIdx := st.rngIdx + 1
          warnings := st.warnings ++
            ["slot with role " ++ slot.role ++ " misses refvar"] })
  | _, _ => none

/-- `get_step_id`. -/
def get_step_id (step : Step) (schema_id : String) : String :=
  schema_id ++ "/Steps/" ++ step.id

/-- The comment attached to the step at 0-based index `idx`:
`comments[idx + 1]`, i.e. `f"{idx + 1}. {step.id.replace(chr(45), chr(32))}"`,
with the author's own step comment appended on a new line when present. -/
def stepComment (idx : Nat) (step : Step) : String :=
  (toString (idx + 1) ++ ". " ++ replaceDash step.id) ++
    (match step.comment with
     | some c => "\n" ++ c
     | none => "")

/-- `slot_shared`: `sum([slot.role == sl.role for sl in container]) > 1`. -/
def sharedIn (container : List Slot) (sl : Slot) : Bool :=
  decide (1 < container.countP (fun s2 => decide (s2.role = sl.role)))

/-- The slot loop of one step (`for slot in step.slots: ... create_slot ...`),
threading the compilation state; `none` propagates the `IndexError`. -/
def processSlots (rng : Nat → String) (schema_id step_type : String)
    (container : List Slot) : List Slot → ConvState → Option (List SDFSlot × ConvState)
  | [], st => some ([], st)
  | sl :: rest, st =>
    match create_slot rng sl st schema_id step_type (sharedIn container sl) with
    | none => none
    | some (s, st') =>
      match processSlots rng schema_id step_type container rest st' with
      | none => none
      | some (ss, st'') => some (s :: ss, st'')

/-- The step loop of `convert_yaml_to_sdf` (`for idx, step in enumerate(...)`). -/
def processSteps (rng : Nat → String) (schema_id : String) :
    List Step → Nat → ConvState → Option (List SDFStep × ConvState)
  | [], _, st => some ([], st)
  | step :: rest, idx, st =>
    let stepType := get_step_type step
    match processSlots rng schema_id stepType step.slots step.slots st with
    | none => none
    | some (parts, st') =>
      match processSteps rng schema_id rest (idx + 1) st' with
      | none => none
      | some (more, st'') =>
        some ({ id := get_step_id step schema_id
                name := step.id
                type := stepType
                comment := stepComment idx step
                participants := parts } :: more, st'')

/-- The schema-level rename `parsed_slot["roleName"] = parsed_slot["role"];
del parsed_slot["role"]`. -/
def renameRole (s : SDFSlot) : SDFSlot :=
  { s with roleName := s.role, role := none }

/-- The schema-level slot loop (`for slot in yaml_data.slots`): `create_slot`
with the schema id in place of a step type, then the `role` → `roleName`
rename. -/
def processSchemaSlots (rng : Nat → String) (schema_id : String)
    (container : List Slot) : List Slot → ConvState → Option (List SDFSlot × ConvState)
  | [], st => some ([], st)
  | sl :: rest, st =>
    match create_slot rng sl st schema_id schema_id (sharedIn container sl) with
    | none => none
    | some (s, st') =>
      match processSchemaSlots rng schema_id container rest st' with
      | none => none
      | some (ss, st'') => some (renameRole s :: ss, st'')

/-- One iteration of the cleanup pass: when the final counter at the slot's
name is exactly 1, look the slot's id up in the entity map, delete that key,
replace the id by `id.strip("-a")` (a Python character-set strip, applied to
both ends), and re-insert the saved value under the new id.  The entity map
always holds every emitted slot id, so the lookup cannot fail; `getD` covers
the case Python would answer with a `KeyError`. -/
def cleanupSlot (counter : String → Nat) (emap : List (String × String))
    (sl : SDFSlot) : SDFSlot × List (String × String) :=
  if counter sl.name = 1 then
    let temp := (pyLookup emap sl.id).getD ""
    let emap' := pyDelete emap sl.id
    let newId := String.mk (pyStripChars ['-', 'a'] sl.id.data)
    ({ sl with id := newId }, pyInsert emap' newId temp)
  else (sl, emap)

/-- Cleanup over one step's participant list. -/
def cleanupSlots (counter : String → Nat) :
    List SDFSlot → List (String × String) → List SDFSlot × List (String × String)
  | [], emap => ([], emap)
  | sl :: rest, emap =>
    let p := cleanupSlot counter emap sl
    let q := cleanupSlots counter rest p.2
    (p.1 :: q.1, q.2)

/-- The cleanup pass of `convert_yaml_to_sdf`: it iterates over `steps` only —
schema-level slots are never visited. -/
def cleanupSteps (counter : String → Nat) :
    List SDFStep → List (String × String) → List SDFStep × List (String × String)
  | [], emap => ([], emap)
  | st :: rest, emap =>
    let p := cleanupSlots counter st.participants emap
    let q := cleanupSteps counter rest p.2
    ({ st with participants := p.1 } :: q.1, q.2)

/-- The step ids referenced by one order relation (both endpoints of `Before`
and `Container`, the whole `overlaps` list). -/
def orderRefs : OrderRel → List String
  | .before _ b a => [b, a]
  | .container _ c d => [c, d]
  | .overlaps _ l => l

/-- `step_map`: `step.id ↦ (canonical id, 1-based index)`, built while
iterating over the steps. -/
def buildStepMap (schema_id : String) :
    List Step → Nat → List (String × (String × Nat)) → List (String × (String × Nat))
  | [], _, m => m
  | step :: rest, idx, m =>
    buildStepMap schema_id rest (idx + 1)
      (pyInsert m step.id (get_step_id step schema_id, idx + 1))

/-- `", ".join(str(i) for i in l)`. -/
def natsJoin : List Nat → String
  | [] => ""
  | [n] => toString n
  | n :: rest => toString n ++ ", " ++ natsJoin rest

/-- Resolution of one order relation against `step_map`; after the validation
pass every lookup succeeds, `none` corresponds to Python's `KeyError`. -/
def resolveOrder (stepMap : List (String × (String × Nat))) :
    OrderRel → Option SDFOrder
  | .before _ b a =>
    match pyLookup stepMap b, pyLookup stepMap a with
    | some bp, some ap =>
      some (.before (toString bp.2 ++ " precedes " ++ toString ap.2) bp.1 ap.1)
    | _, _ => none
  | .container _ c d =>
    match pyLookup stepMap c, pyLookup stepMap d with
    | some cp, some dp =>
      some (.container (toString cp.2 ++ " contains " ++ toString dp.2) cp.1 dp.1)
    | _, _ => none
  | .overlaps _ l =>
    match l.mapM (pyLookup stepMap) with
    | some resolved =>
      some (.overlaps (natsJoin (resolved.map Prod.snd) ++ " overlaps")
        (resolved.map Prod.fst))
    | none => none

/-- The `comments` list: `["Steps:"]` followed by one positional line per
step. -/
def schemaComments (steps : List Step) : List String :=
  "Steps:" :: (List.range steps.length).zipWith
    (fun i st => toString (i + 1) ++ ". " ++ replaceDash st.id) steps

/-- `convert_yaml_to_sdf`.  Control flow mirrors the source: compile the
steps (and their slots), compile the schema-level slots, run the cleanup
pass over the step participants, validate the order references (logging one
error per missing id and aborting via `exit(1)`), resolve the order
relations, and assemble the canonical schema with an empty
`entityRelations` list (the sameAs derivation is commented out in the
source). -/
def convert_yaml_to_sdf (rng : Nat → String) (yaml_data : Schema) :
    Except ConvErr SDFSchema :=
  let schema_id := yaml_data.schema_id
  match processSteps rng schema_id yaml_data.steps 0 ⟨fun _ => 0, [], 0, []⟩ with
  | none => .error .indexError
  | some (steps0, st1) =>
    match processSchemaSlots rng schema_id yaml_data.slots yaml_data.slots st1 with
    | none => .error .indexError
    | some (schemaSlots, st2) =>
      let steps1 := (cleanupSteps st2.counter steps0 st2.entityMap).1
      let step_ids := yaml_data.steps.map Step.id
      let refs := yaml_data.order.flatMap orderRefs
      let missing := refs.dedup.filter (fun x => decide (x ∉ step_ids))
      if missing.isEmpty then
        match yaml_data.order.mapM
            (resolveOrder (buildStepMap schema_id yaml_data.steps 0 [])) with
        | none => .error .indexError
        | some orders =>
          .ok { id := schema_id
                comment := schemaComments yaml_data.steps
                super := "kairos:Event"
                name := yaml_data.schema_name
                description := yaml_data.schema_dscpt
                version := yaml_data.schema_version
                steps := steps1
                order := orders
                entityRelations := []
                slots := schemaSlots }
      else
        .error (.missingSteps (missing.map (fun m =>
          "The ID " ++ m ++ " in order is not in steps")))

/-! ## Pure characterization layer

The compilation state threaded through `processSteps` influences the emitted
record only through the slot counter; the entity map, the RNG index and the
warning log never reach the returned schema.  The following pure functions
compute the same output from the counter alone; the simulation lemmas below
prove them equal to the pipeline. -/

/-- The derived names of the slots of one container, in declaration order
(undefinable slots are skipped; `slotNamesOk` rules that out). -/
def slotNamesD (container l : List Slot) : List String :=
  l.filterMap (fun sl => get_slot_name sl (sharedIn container sl))

/-- All slots of a container have derivable names (no `IndexError`). -/
def slotNamesOk (container l : List Slot) : Bool :=
  l.all (fun sl => (get_slot_name sl (sharedIn container sl)).isSome)

/-- Pointwise sum of a counter and the multiset of a name list. -/
def bumpMany (cnt : String → Nat) (ns : List String) : String → Nat :=
  fun m => cnt m + ns.count m

/-- Counter-only recomputation of the slot list produced by `processSlots`. -/
def specSlotList (schema_id step_type : String) (container : List Slot) :
    List Slot → (String → Nat) → List SDFSlot
  | [], _ => []
  | sl :: rest, cnt =>
    match get_slot_name sl (sharedIn container sl) with
    | none => []
    | some name =>
      mkSDFSlot schema_id step_type sl name (cnt name) ::
        specSlotList schema_id step_type container rest (bump cnt name)

/-- Counter-only recomputation of the step list produced by `processSteps`. -/
def specStepList (sid : String) : List Step → Nat → (String → Nat) → List SDFStep
  | [], _, _ => []
  | step :: rest, idx, cnt =>
    { id := get_step_id step sid
      name := step.id
      type := get_step_type step
      comment := stepComment idx step
      participants := specSlotList sid (get_step_type step) step.slots step.slots cnt } ::
      specStepList sid rest (idx + 1) (bumpMany cnt (slotNamesD step.slots step.slots))

/-- Derived names of all step participants, in declaration order. -/
def stepsNamesD (steps : List Step) : List String :=
  steps.flatMap (fun st => slotNamesD st.slots st.slots)

/-- All step participants have derivable names. -/
def stepsNamesOk (steps : List Step) : Bool :=
  steps.all (fun st => slotNamesOk st.slots st.slots)

/-- Every slot of the schema (participants first, then schema-level slots)
has a derivable name. -/
def allNamesOk (s : Schema) : Bool :=
  stepsNamesOk s.steps && slotNamesOk s.slots s.slots

/-- All derived slot names of the schema, in synthesis order: step
participants in declaration order, then schema-level slots. -/
def allNamesD (s : Schema) : List String :=
  stepsNamesD s.steps ++ slotNamesD s.slots s.slots

/-- The final value of `schema_slot_counter`: how often each derived name was
synthesized over the whole schema. -/
def totalCnt (s : Schema) : String → Nat :=
  fun n => (allNamesD s).count n

/-- The slot rewrite performed by the cleanup pass, without the entity map. -/
def cleanupSlotPure (cnt : String → Nat) (sl : SDFSlot) : SDFSlot :=
  if cnt sl.name = 1 then
    { sl with id := String.mk (pyStripChars ['-', 'a'] sl.id.data) }
  else sl

/-- Counter-only recomputation of `convert_yaml_to_sdf` (proved equal to it in
`convert_eq_spec`). -/
def convertSpec (s : Schema) : Except ConvErr SDFSchema :=
  if allNamesOk s then
    let steps1 := (specStepList s.schema_id s.steps 0 (fun _ => 0)).map
      (fun st => { st with participants := st.participants.map (cleanupSlotPure (totalCnt s)) })
    let schemaSlots := (specSlotList s.schema_id s.schema_id s.slots s.slots
      (bumpMany (fun _ => 0) (stepsNamesD s.steps))).map renameRole
    let step_ids := s.steps.map Step.id
    let refs := s.order.flatMap orderRefs
    let missing := refs.dedup.filter (fun x => decide (x ∉ step_ids))
    if missing.isEmpty then
      match s.order.mapM (resolveOrder (buildStepMap s.schema_id s.steps 0 [])) with
      | none => .error .indexError
      | some orders =>
        .ok { id := s.schema_id
              comment := schemaComments s.steps
              super := "kairos:Event"
              name := s.schema_name
              description := s.schema_dscpt
              version := s.schema_version
              steps := steps1
              order := orders
              entityRelations := []
              slots := schemaSlots }
    else
      .error (.missingSteps (missing.map (fun m =>
        "The ID " ++ m ++ " in order is not in steps")))
  else .error .indexError

/-- Safety condition under which `strip("-a")` removes exactly the `-a`
disambiguator from a synthesized slot id: the derived name is nonempty and
its last character is neither `-` nor `a`. -/
def nameStripSafe (n : String) : Bool :=
  !n.data.isEmpty &&
    (match n.data.getLast? with
     | some c => !(c = '-' || c = 'a')
     | none => false)

/-- Safety condition on the schema id: its first character (or, for the empty
id, the following `/`) is not consumed by the *leading* strip of
`strip("-a")`. -/
def sidStripSafe (sid : String) : Bool :=
  match sid.data with
  | [] => true
  | c :: _ => !(c = '-' || c = 'a')

/-! ## Occurrence-indexed description of the emitted slot ids -/

/-- All slot ids of a compiled schema, in emission order: step participants in
step/declaration order, then schema-level slots. -/
def outSlotIds (out : SDFSchema) : List String :=
  (out.steps.flatMap (fun st => st.participants.map (fun sl => sl.id))) ++
    out.slots.map (fun sl => sl.id)

/-- The derived names of all slots of the schema, tagged with whether the slot
is a step participant (`true`) or a schema-level slot (`false`) — only step
participants are visited by the cleanup pass. -/
def pairsSchema (s : Schema) : List (String × Bool) :=
  (stepsNamesD s.steps).map (fun n => (n, true)) ++
    (slotNamesD s.slots s.slots).map (fun n => (n, false))

/-- The id assigned to each tagged name, folding the slot counter along the
list: occurrence `k` of name `n` gets `mkSlotId sid n k`, and the cleanup
strips ids of step participants whose name was synthesized exactly once. -/
def finIdsB (sid : String) (total : String → Nat) :
    (String → Nat) → List (String × Bool) → List String
  | _, [] => []
  | cnt, (n, b) :: rest =>
    (if b = true ∧ total n = 1 then
       String.mk (pyStripChars ['-', 'a'] (mkSlotId sid n (cnt n)).data)
     else mkSlotId sid n (cnt n)) :: finIdsB sid total (bump cnt n) rest

/-- Each tagged name paired with its occurrence index (the counter value it is
assigned). -/
def occPairsB : (String → Nat) → List (String × Bool) → List (String × Nat × Bool)
  | _, [] => []
  | cnt, (n, b) :: rest => (n, cnt n, b) :: occPairsB (bump cnt n) rest

/-- The id assigned to one occurrence: occurrence `k` of name `n` gets
`mkSlotId sid n k`, stripped by the cleanup when the slot is a step
participant and `n` was synthesized exactly once. -/
def finIdB (sid : String) (total : String → Nat) (t : String × Nat × Bool) : String :=
  if t.2.2 = true ∧ total t.1 = 1 then
    String.mk (pyStripChars ['-', 'a'] (mkSlotId sid t.1 t.2.1).data)
  else mkSlotId sid t.1 t.2.1

/-- Safety condition under which the post-cleanup slot ids of a schema are
pairwise distinct: every derived slot name is nonempty, free of `-`, does not
end in `a` or `-`, and is synthesized at most 26 times, and the schema id does
not start with `-` or `a`. -/
def uniqSafe (s : Schema) : Bool :=
  sidStripSafe s.schema_id &&
    (allNamesD s).all (fun n =>
      nameStripSafe n && !(decide ('-' ∈ n.data)) &&
        decide ((allNamesD s).count n ≤ 26))

/-- The step ids referenced in `order` but not declared in `steps`
(the set difference `order_ids - step_ids`, as a deduplicated list). -/
def missingOrderIds (s : Schema) : List String :=
  ((s.order.flatMap orderRefs).dedup).filter
    (fun x => decide (x ∉ s.steps.map Step.id))

/-- Safety condition under which `strip("-a")` removes exactly the
disambiguator: every derived name is nonempty and does not end in `-` or `a`,
and the schema id does not start with `-` or `a`. -/
def stripSafeB (s : Schema) : Bool :=
  sidStripSafe s.schema_id && (allNamesD s).all nameStripSafe

/-- Concrete steps exercising the three padding cases of C4. -/
def stepX : Step := { id := "s", primitive := "X", comment := none, slots := [] }

/-- Two-segment primitive for the C4 witness. -/
def stepXY : Step := { id := "s", primitive := "X.Y", comment := none, slots := [] }

/-- Three-segment primitive for the C4 witness. -/
def stepXYZ : Step := { id := "s", primitive := "X.Y.Z", comment := none, slots := [] }

/-- A slot whose role is only whitespace, for the C10 witness. -/
def slotWs : Slot :=
  { role := " ", refvar := some "x", constraints := none, reference := none,
    comment := none }

/-- A schema containing `slotWs`, for the C10 witness. -/
def schemaWs : Schema :=
  { schema_id := "cmu:T", schema_name := "", schema_dscpt := "",
    schema_version := "", slots := [],
    steps := [{ id := "s1", primitive := "P", comment := none, slots := [slotWs] }],
    order := [], comment := none }

/-- A schema whose order references two undeclared step ids, for the C1
witness. -/
def schemaMissingRef : Schema :=
  { schema_id := "cmu:T", schema_name := "", schema_dscpt := "",
    schema_version := "", slots := [],
    steps := [{ id := "s1", primitive := "P", comment := none, slots := [] }],
    order := [OrderRel.before none "s1" "missing-step",
              OrderRel.overlaps none ["zz", "s1", "zz"]],
    comment := none }

/-- A schema whose two roles `A` and `Aa` collide after the cleanup pass:
`strip("-a")` removes the whole trailing run of `-`/`a` characters, mapping
both `cmu:T/Slots/a-a` and `cmu:T/Slots/aa-a` to `cmu:T/Slots/`. -/
def schemaAAa : Schema :=
  { schema_id := "cmu:T", schema_name := "", schema_dscpt := "",
    schema_version := "", slots := [],
    steps := [{ id := "s1", primitive := "P", comment := none,
                slots := [{ role := "A", refvar := some "r1", constraints := none,
                            reference := none, comment := none },
                          { role := "Aa", refvar := some "r2", constraints := none,
                            reference := none, comment := none }] }],
    order := [], comment := none }

/-- A well-behaved schema (distinct, strip-safe role names) used as the
witness input for several amended claims. -/
def W2 : Schema :=
  { schema_id := "cmu:T", schema_name := "N", schema_dscpt := "D",
    schema_version := "1",
    slots := [{ role := "Patient", refvar := some "p", constraints := none,
                reference := none, comment := none }],
    steps := [{ id := "s1", primitive := "P", comment := none,
                slots := [{ role := "Victim", refvar := some "v", constraints := none,
                            reference := none, comment := none },
                          { role := "Helper", refvar := some "h2", constraints := none,
                            reference := none, comment := none }] }],
    order := [], comment := none }

/-- The canonical schema `convert_yaml_to_sdf` produces for `W2`. -/
def W2out : SDFSchema :=
  { id := "cmu:T",
    comment := ["Steps:", "1. s1"],
    super := "kairos:Event",
    name := "N",
    description := "D",
    version := "1",
    steps := [{ id := "cmu:T/Steps/s1",
                name := "s1",
                type := "kairos:Primitives/Events/P.Unspecified.Unspecified",
                comment := "1. s1",
                participants := [
                  { name := "victim",
                    id := "cmu:T/Slots/victim",
                    role := some "kairos:Primitives/Events/P.Unspecified.Unspecified/Slots/Victim",
                    roleName := none, entityTypes := none, reference := none,
                    refvar := some "v", comment := none },
                  { name := "helper",
                    id := "cmu:T/Slots/helper",
                    role := some "kairos:Primitives/Events/P.Unspecified.Unspecified/Slots/Helper",
                    roleName := none, entityTypes := none, reference := none,
                    refvar := some "h2", comment := none }] }],
    order := [],
    entityRelations := [],
    slots := [{ name := "patient",
                id := "cmu:T/Slots/patient-a",
                role := none,
                roleName := some "cmu:T/Slots/Patient",
                entityTypes := none, reference := none,
                refvar := some "p", comment := none }] }

/-- A schema in which the role `Victim` appears exactly once in each of two
containers (two different steps), for the C5 counterexample and witness. -/
def schemaVictimTwice : Schema :=
  { schema_id := "cmu:T", schema_name := "", schema_dscpt := "",
    schema_version := "", slots := [],
    steps := [{ id := "s1", primitive := "P", comment := none,
                slots := [{ role := "Victim", refvar := some "v1", constraints := none,
                            reference := none, comment := none }] },
              { id := "s2", primitive := "P", comment := none,
                slots := [{ role := "Victim", refvar := some "v2", constraints := none,
                            reference := none, comment := none }] }],
    order := [], comment := none }

/-- The canonical schema `convert_yaml_to_sdf` produces for
`schemaVictimTwice`. -/
def W5out : SDFSchema :=
  { id := "cmu:T",
    comment := ["Steps:", "1. s1", "2. s2"],
    super := "kairos:Event",
    name := "",
    description := "",
    version := "",
    steps := [{ id := "cmu:T/Steps/s1",
                name := "s1",
                type := "kairos:Primitives/Events/P.Unspecified.Unspecified",
                comment := "1. s1",
                participants := [
                  { name := "victim",
                    id := "cmu:T/Slots/victim-a",
                    role := some "kairos:Primitives/Events/P.Unspecified.Unspecified/Slots/Victim",
                    roleName := none, entityTypes := none, reference := none,
                    refvar := some "v1", comment := none }] },
              { id := "cmu:T/Steps/s2",
                name := "s2",
                type := "kairos:Primitives/Events/P.Unspecified.Unspecified",
                comment := "2. s2",
                participants := [
                  { name := "victim",
                    id := "cmu:T/Slots/victim-b",
                    role := some "kairos:Primitives/Events/P.Unspecified.Unspecified/Slots/Victim",
                    roleName := none, entityTypes := none, reference := none,
                    refvar := some "v2", comment := none }] }],
    order := [],
    entityRelations := [],
    slots := [] }

/-- A schema whose only slot is schema-level, for the C6 and C9
counterexamples. -/
def schemaSlotOnly : Schema :=
  { schema_id := "cmu:T", schema_name := "", schema_dscpt := "",
    schema_version := "", 
    slots := [{ role := "Victim", refvar := some "v", constraints := none,
                reference := none, comment := none }],
    steps := [{ id := "s1", primitive := "P", comment := none, slots := [] }],
    order := [], comment := none }

/-- A one-entry entity map for the C6 witness. -/
def emapW : List (String × String) := [("cmu:T/Slots/victim-a", "v")]

/-- The slot record the cleanup rewrites in the C6 witness. -/
def slW : SDFSlot :=
  { name := "victim", id := "cmu:T/Slots/victim-a",
    role := some "cmu:T/Slots/Victim", roleName := none, entityTypes := none,
    reference := none, refvar := some "v", comment := none }

/-- A schema with a slot that has neither a usable role nor a refvar, for the
C8 counterexample. -/
def schemaEmptyRoleNoRef : Schema :=
  { schema_id := "cmu:T", schema_name := "", schema_dscpt := "",
    schema_version := "", slots := [],
    steps := [{ id := "s1", primitive := "P", comment := none,
                slots := [{ role := "", refvar := none, constraints := none,
                            reference := none, comment := none }] }],
    order := [], comment := none }

/-- An injective RNG supply for the C8 witness. -/
def rngRep : Nat → String := fun n => String.mk (List.replicate n 'r')

/-- A refvar-less slot with a derivable name for the C8 witness. -/
def slotNoRef : Slot :=
  { role := "Victim", refvar := none, constraints := none, reference := none,
    comment := none }

/-- The initial compilation state, for the C8 witness. -/
def convSt0 : ConvState := ⟨fun _ => 0, [], 0, []⟩

/-- A schema with both a whitespace-only slot role and a missing order
reference, for the C1 counterexample: the `IndexError` pre-empts the order
validation. -/
def schemaWsAndMissing : Schema :=
  { schema_id := "cmu:T", schema_name := "", schema_dscpt := "",
    schema_version := "", slots := [],
    steps := [{ id := "s1", primitive := "P", comment := none,
                slots := [{ role := " ", refvar := some "x", constraints := none,
                            reference := none, comment := none }] }],
    order := [OrderRel.before none "s1" "missing-step"], comment := none }

/-! ### Simulation lemmas -/

lemma bumpMany_nil (cnt : String → Nat) : bumpMany cnt [] = cnt := by
  funext m; simp [bumpMany]

lemma bump_bumpMany (cnt : String → Nat) (n : String) (ns : List String) :
    bumpMany (bump cnt n) ns = bumpMany cnt (n :: ns) := by
  funext m
  by_cases h : m = n
  · subst h
    simp only [bumpMany, bump, if_pos rfl, List.count_cons, beq_self_eq_true, if_true]
    omega
  · have hb : (n == m) = false := beq_eq_false_iff_ne.mpr (Ne.symm h)
    simp only [bumpMany, bump, if_neg h, List.count_cons, hb, Bool.false_eq_true,
      if_false]
    omega

lemma bumpMany_append (cnt : String → Nat) (xs ys : List String) :
    bumpMany (bumpMany cnt xs) ys = bumpMany cnt (xs ++ ys) := by
  funext m
  simp only [bumpMany, List.count_append]
  omega

lemma create_slot_none (rng : Nat → String) (slot : Slot) (st : ConvState)
    (sid tp : String) (sh : Bool) (h : get_slot_name slot sh = none) :
    create_slot rng slot st sid tp sh = none := by
  simp [create_slot, get_slot_id, h]

lemma create_slot_some (rng : Nat → String) (slot : Slot) (st : ConvState)
    (sid tp : String) (sh : Bool) (name : String)
    (h : get_slot_name slot sh = some name) :
    ∃ st', create_slot rng slot st sid tp sh =
      some (mkSDFSlot sid tp slot name (st.counter name), st') ∧
      st'.counter = bump st.counter name := by
  cases hr : slot.refvar <;>
    simp [create_slot, get_slot_id, h, hr]

lemma processSlots_char (rng : Nat → String) (sid tp : String) (cont : List Slot) :
    ∀ (l : List Slot) (st : ConvState),
      (slotNamesOk cont l = false → processSlots rng sid tp cont l st = none) ∧
      (slotNamesOk cont l = true →
        ∃ st', processSlots rng sid tp cont l st =
            some (specSlotList sid tp cont l st.counter, st') ∧
          st'.counter = bumpMany st.counter (slotNamesD cont l)) := by
  intro l
  induction l with
  | nil =>
    intro st
    refine ⟨fun h => by simp [slotNamesOk] at h, fun _ => ⟨st, ?_, ?_⟩⟩
    · simp [processSlots, specSlotList]
    · simp [slotNamesD, bumpMany_nil]
  | cons sl rest ih =>
    intro st
    constructor
    · intro h
      rcases hn : get_slot_name sl (sharedIn cont sl) with _ | name
      · simp [processSlots, create_slot_none rng sl st sid tp _ hn]
      · obtain ⟨st1, hcs, hcnt⟩ := create_slot_some rng sl st sid tp _ name hn
        have hrest : slotNamesOk cont rest = false := by
          simp only [slotNamesOk, List.all_cons, hn, Option.isSome_some,
            Bool.true_and] at h ⊢
          exact h
        simp [processSlots, hcs, (ih st1).1 hrest]
    · intro h
      rcases hn : get_slot_name sl (sharedIn cont sl) with _ | name
      · simp [slotNamesOk, hn] at h
      · obtain ⟨st1, hcs, hcnt⟩ := create_slot_some rng sl st sid tp _ name hn
        have hrest : slotNamesOk cont rest = true := by
          simp only [slotNamesOk, List.all_cons, hn, Option.isSome_some,
            Bool.true_and] at h
          exact h
        obtain ⟨st2, hps, hcnt2⟩ := (ih st1).2 hrest
        refine ⟨st2, ?_, ?_⟩
        · simp [processSlots, hcs, hps, specSlotList, hn, hcnt]
        · rw [hcnt2, hcnt, bump_bumpMany]
          simp [slotNamesD, hn]

lemma processSchemaSlots_char (rng : Nat → String) (sid : String) (cont : List Slot) :
    ∀ (l : List Slot) (st : ConvState),
      (slotNamesOk cont l = false → processSchemaSlots rng sid cont l st = none) ∧
      (slotNamesOk cont l = true →
        ∃ st', processSchemaSlots rng sid cont l st =
            some ((specSlotList sid sid cont l st.counter).map renameRole, st') ∧
          st'.counter = bumpMany st.counter (slotNamesD cont l)) := by
  intro l
  induction l with
  | nil =>
    intro st
    refine ⟨fun h => by simp [slotNamesOk] at h, fun _ => ⟨st, ?_, ?_⟩⟩
    · simp [processSchemaSlots, specSlotList]
    · simp [slotNamesD, bumpMany_nil]
  | cons sl rest ih =>
    intro st
    constructor
    · intro h
      rcases hn : get_slot_name sl (sharedIn cont sl) with _ | name
      · simp [processSchemaSlots, create_slot_none rng sl st sid sid _ hn]
      · obtain ⟨st1, hcs, hcnt⟩ := create_slot_some rng sl st sid sid _ name hn
        have hrest : slotNamesOk cont rest = false := by
          simp only [slotNamesOk, List.all_cons, hn, Option.isSome_some,
            Bool.true_and] at h ⊢
          exact h
        simp [processSchemaSlots, hcs, (ih st1).1 hrest]
    · intro h
      rcases hn : get_slot_name sl (sharedIn cont sl) with _ | name
      · simp [slotNamesOk, hn] at h
      · obtain ⟨st1, hcs, hcnt⟩ := create_slot_some rng sl st sid sid _ name hn
        have hrest : slotNamesOk cont rest = true := by
          simp only [slotNamesOk, List.all_cons, hn, Option.isSome_some,
            Bool.true_and] at h
          exact h
        obtain ⟨st2, hps, hcnt2⟩ := (ih st1).2 hrest
        refine ⟨st2, ?_, ?_⟩
        · simp [processSchemaSlots, hcs, hps, specSlotList, hn, hcnt]
        · rw [hcnt2, hcnt, bump_bumpMany]
          simp [slotNamesD, hn]

lemma processSteps_char (rng : Nat → String) (sid : String) :
    ∀ (steps : List Step) (idx : Nat) (st : ConvState),
      (stepsNamesOk steps = false → processSteps rng sid steps idx st = none) ∧
      (stepsNamesOk steps = true →
        ∃ st', processSteps rng sid steps idx st =
            some (specStepList sid steps idx st.counter, st') ∧
          st'.counter = bumpMany st.counter (stepsNamesD steps)) := by
  intro steps
  induction steps with
  | nil =>
    intro idx st
    refine ⟨fun h => by simp [stepsNamesOk] at h, fun _ => ⟨st, ?_, ?_⟩⟩
    · simp [processSteps, specStepList]
    · simp [stepsNamesD, bumpMany_nil]
  | cons step rest ih =>
    intro idx st
    constructor
    · intro h
      rcases hok : slotNamesOk step.slots step.slots with _ | _
      · have := (processSlots_char rng sid (get_step_type step) step.slots
          step.slots st).1 hok
        simp [processSteps, this]
      · obtain ⟨st1, hps, hcnt⟩ := (processSlots_char rng sid (get_step_type step)
          step.slots step.slots st).2 hok
        have hrest : stepsNamesOk rest = false := by
          simp only [stepsNamesOk, List.all_cons, hok, Bool.true_and] at h ⊢
          exact h
        simp [processSteps, hps, (ih (idx + 1) st1).1 hrest]
    · intro h
      have hok : slotNamesOk step.slots step.slots = true := by
        simp only [stepsNamesOk, List.all_cons, Bool.and_eq_true] at h
        exact h.1
      have hrest : stepsNamesOk rest = true := by
        simp only [stepsNamesOk, List.all_cons, Bool.and_eq_true] at h
        exact h.2
      obtain ⟨st1, hps, hcnt⟩ := (processSlots_char rng sid (get_step_type step)
        step.slots step.slots st).2 hok
      obtain ⟨st2, hpr, hcnt2⟩ := (ih (idx + 1) st1).2 hrest
      refine ⟨st2, ?_, ?_⟩
      · simp [processSteps, hps, hpr, specStepList, hcnt]
      · rw [hcnt2, hcnt, bumpMany_append]
        simp [stepsNamesD]

lemma cleanupSlot_fst (cnt : String → Nat) (emap : List (String × String))
    (sl : SDFSlot) : (cleanupSlot cnt emap sl).1 = cleanupSlotPure cnt sl := by
  unfold cleanupSlot cleanupSlotPure
  split <;> rfl

lemma cleanupSlots_fst (cnt : String → Nat) :
    ∀ (l : List SDFSlot) (emap : List (String × String)),
      (cleanupSlots cnt l emap).1 = l.map (cleanupSlotPure cnt) := by
  intro l
  induction l with
  | nil => intro emap; simp [cleanupSlots]
  | cons sl rest ih =>
    intro emap
    simp [cleanupSlots, cleanupSlot_fst, ih]

lemma cleanupSteps_fst (cnt : String → Nat) :
    ∀ (steps : List SDFStep) (emap : List (String × String)),
      (cleanupSteps cnt steps emap).1 =
        steps.map (fun st =>
          { st with participants := st.participants.map (cleanupSlotPure cnt) }) := by
  intro steps
  induction steps with
  | nil => intro emap; simp [cleanupSteps]
  | cons st rest ih =>
    intro emap
    simp [cleanupSteps, cleanupSlots_fst, ih]

lemma totalCnt_eq (s : Schema) :
    bumpMany (bumpMany (fun _ => 0) (stepsNamesD s.steps)) (slotNamesD s.slots s.slots) =
      totalCnt s := by
  rw [bumpMany_append]
  funext m
  simp [bumpMany, totalCnt, allNamesD]

/-- The output of `convert_yaml_to_sdf` does not depend on the entity map, the
RNG supply or the warning log: it equals the counter-only recomputation
`convertSpec`. -/
theorem convert_eq_spec (rng : Nat → String) (s : Schema) :
    convert_yaml_to_sdf rng s = convertSpec s := by
  rcases hst : stepsNamesOk s.steps with _ | _
  · have hn := (processSteps_char rng s.schema_id s.steps 0 ⟨fun _ => 0, [], 0, []⟩).1 hst
    have hall : allNamesOk s = false := by simp [allNamesOk, hst]
    simp [convert_yaml_to_sdf, hn, convertSpec, hall]
  · obtain ⟨st1, hps, hc1⟩ :=
      (processSteps_char rng s.schema_id s.steps 0 ⟨fun _ => 0, [], 0, []⟩).2 hst
    rcases hsl : slotNamesOk s.slots s.slots with _ | _
    · have hn := (processSchemaSlots_char rng s.schema_id s.slots s.slots st1).1 hsl
      have hall : allNamesOk s = false := by simp [allNamesOk, hsl]
      simp [convert_yaml_to_sdf, hps, hn, convertSpec, hall]
    · obtain ⟨st2, hsch, hc2⟩ :=
        (processSchemaSlots_char rng s.schema_id s.slots s.slots st1).2 hsl
      have hall : allNamesOk s = true := by simp [allNamesOk, hst, hsl]
      have hcnt : st2.counter = totalCnt s := by
        rw [hc2, hc1]
        exact totalCnt_eq s
      simp only [convert_yaml_to_sdf, hps, hsch, convertSpec, hall, if_true,
        cleanupSteps_fst, hcnt, hc1]

/-! ## String-level analysis of the synthesized identifiers -/

lemma string_ext {s t : String} (h : s.data = t.data) : s = t := by
  cases s; cases t; exact congrArg String.mk h

lemma string_data_append (a b : String) : (a ++ b).data = a.data ++ b.data := rfl

lemma mkSlotId_data (sid n : String) (k : Nat) :
    (mkSlotId sid n k).data =
      sid.data ++ "/Slots/".data ++ n.data ++ ['-', Char.ofNat (k + 97)] := by
  simp [mkSlotId, string_data_append, String.singleton]

lemma charOfNat_toNat {n : Nat} (h : n < 55296) : (Char.ofNat n).toNat = n := by
  unfold Char.ofNat
  rw [dif_pos (Or.inl h)]
  rfl

lemma charOfNat_inj {a b : Nat} (ha : a < 55296) (hb : b < 55296)
    (h : Char.ofNat a = Char.ofNat b) : a = b := by
  have := congrArg Char.toNat h
  rwa [charOfNat_toNat ha, charOfNat_toNat hb] at this

lemma dropWhile_strip_front {sid : String} (hs : sidStripSafe sid = true)
    (rest : List Char) (hr : rest.head? = some '/') :
    (sid.data ++ rest).dropWhile (fun c => decide (c ∈ ['-', 'a'])) =
      sid.data ++ rest := by
  rcases hd : sid.data with _ | ⟨c, cs⟩
  · rcases rest with _ | ⟨r, rs⟩
    · simp at hr
    · simp only [Option.some_inj, List.head?] at hr
      subst hr
      simp [List.dropWhile_cons]
  · have hc : (c = '-' ∨ c = 'a') → False := by
      intro hcc
      unfold sidStripSafe at hs
      rw [hd] at hs
      rcases hcc with h1 | h1 <;> simp [h1] at hs
    have hcn : ¬(decide (c ∈ ['-', 'a']) = true) := by
      simp only [decide_eq_true_eq]
      intro hm
      simp only [List.mem_cons, List.not_mem_nil, or_false] at hm
      exact hc hm
    simp only [List.cons_append, List.dropWhile_cons]
    rw [if_neg hcn]

/-- Under the safety conditions, `strip("-a")` on `{sid}/Slots/{n}-a` removes
exactly the two trailing characters. -/
lemma pyStrip_mkSlotId {sid n : String} (hs : sidStripSafe sid = true)
    (hn : nameStripSafe n = true) :
    pyStripChars ['-', 'a'] ((mkSlotId sid n 0).data) =
      (sid ++ "/Slots/" ++ n).data := by
  have hch : Char.ofNat (0 + 97) = 'a' := by decide
  have hdata : (mkSlotId sid n 0).data = sid.data ++ ("/Slots/".data ++ n.data ++ ['-', 'a']) := by
    rw [mkSlotId_data, hch]
    simp [List.append_assoc]
  obtain ⟨hne, hlast⟩ : n.data.isEmpty = false ∧
      (match n.data.getLast? with
       | some c => !(c = '-' || c = 'a')
       | none => false) = true := by
    unfold nameStripSafe at hn
    rcases Bool.and_eq_true_iff.mp hn with ⟨h1, h2⟩
    exact ⟨by simpa using h1, h2⟩
  obtain ⟨c, rest, hrv⟩ : ∃ c rest, n.data.reverse = c :: rest := by
    rcases hx : n.data.reverse with _ | ⟨c, rest⟩
    · rw [List.reverse_eq_nil_iff] at hx
      rw [hx] at hne
      simp at hne
    · exact ⟨c, rest, rfl⟩
  have hcl : n.data.getLast? = some c := by
    rw [← List.head?_reverse, hrv]
    rfl
  have hpc : decide (c ∈ ['-', 'a']) = false := by
    rw [hcl] at hlast
    simp only [Bool.not_eq_true', Bool.or_eq_false_iff, decide_eq_false_iff_not] at hlast
    simp [hlast.1, hlast.2]
  have key : ∀ A : List Char,
      ((A ++ n.data ++ ['-', 'a']).reverse.dropWhile
        (fun c => decide (c ∈ ['-', 'a']))).reverse = A ++ n.data := by
    intro A
    have hrev : (A ++ n.data ++ ['-', 'a']).reverse =
        'a' :: '-' :: (n.data.reverse ++ A.reverse) := by
      simp
    rw [hrev, hrv]
    simp only [List.cons_append, List.dropWhile_cons]
    rw [if_pos (by decide), if_pos (by decide), if_neg (by simpa using hpc)]
    rw [← List.cons_append, ← hrv]
    simp
  unfold pyStripChars
  rw [hdata, dropWhile_strip_front hs _ (by rfl)]
  have hassoc : sid.data ++ ("/Slots/".data ++ n.data ++ ['-', 'a']) =
      (sid.data ++ "/Slots/".data) ++ n.data ++ ['-', 'a'] := by
    simp [List.append_assoc]
  rw [hassoc, key]
  simp [string_data_append, List.append_assoc]

lemma finIdsB_append (sid : String) (total : String → Nat) :
    ∀ (xs ys : List (String × Bool)) (cnt : String → Nat),
      finIdsB sid total cnt (xs ++ ys) =
        finIdsB sid total cnt xs ++
          finIdsB sid total (bumpMany cnt (xs.map Prod.fst)) ys := by
  intro xs
  induction xs with
  | nil => intro ys cnt; simp [finIdsB, bumpMany_nil]
  | cons p rest ih =>
    intro ys cnt
    rcases p with ⟨n, b⟩
    simp only [List.cons_append, finIdsB, List.append_eq]
    rw [ih ys (bump cnt n), bump_bumpMany]
    simp [finIdsB, List.cons_append]

lemma cleanupSlotPure_mk (total : String → Nat) (sid tp : String) (sl : Slot)
    (name : String) (k : Nat) :
    (cleanupSlotPure total (mkSDFSlot sid tp sl name k)).id =
      if total name = 1 then
        String.mk (pyStripChars ['-', 'a'] (mkSlotId sid name k).data)
      else mkSlotId sid name k := by
  by_cases h : total name = 1
  · rw [if_pos h]
    unfold cleanupSlotPure
    rw [if_pos (by exact h)]
    rfl
  · rw [if_neg h]
    unfold cleanupSlotPure
    rw [if_neg (by exact h)]
    rfl

lemma stepSlotIds_char (sid tp : String) (total : String → Nat) (cont : List Slot) :
    ∀ (l : List Slot) (cnt : String → Nat), slotNamesOk cont l = true →
      ((specSlotList sid tp cont l cnt).map (cleanupSlotPure total)).map (fun sl => sl.id) =
        finIdsB sid total cnt ((slotNamesD cont l).map (fun n => (n, true))) := by
  intro l
  induction l with
  | nil => intro cnt _; simp [specSlotList, slotNamesD, finIdsB]
  | cons sl rest ih =>
    intro cnt h
    rcases hn : get_slot_name sl (sharedIn cont sl) with _ | name
    · simp [slotNamesOk, hn] at h
    · have hrest : slotNamesOk cont rest = true := by
        simp only [slotNamesOk, List.all_cons, hn, Option.isSome_some,
          Bool.true_and] at h
        exact h
      simp only [specSlotList, hn, slotNamesD, List.filterMap_cons, List.map_cons,
        finIdsB]
      rw [cleanupSlotPure_mk]
      rw [show List.filterMap (fun sl => get_slot_name sl (sharedIn cont sl)) rest =
        slotNamesD cont rest from rfl]
      rw [ih (bump cnt name) hrest]
      by_cases ht : total name = 1
      · rw [if_pos ht, if_pos ⟨by trivial, ht⟩]
      · rw [if_neg ht, if_neg (by rintro ⟨_, hc⟩; exact ht hc)]

lemma map_fst_pair (b : Bool) : ∀ l : List String,
    List.map (Prod.fst ∘ fun n => ((n, b) : String × Bool)) l = l := by
  intro l
  induction l with
  | nil => rfl
  | cons x xs ih => simp only [List.map_cons, Function.comp_apply, ih]

lemma schemaSlotIds_char (sid : String) (total : String → Nat) (cont : List Slot) :
    ∀ (l : List Slot) (cnt : String → Nat), slotNamesOk cont l = true →
      ((specSlotList sid sid cont l cnt).map renameRole).map (fun sl => sl.id) =
        finIdsB sid total cnt ((slotNamesD cont l).map (fun n => (n, false))) := by
  intro l
  induction l with
  | nil => intro cnt _; simp [specSlotList, slotNamesD, finIdsB]
  | cons sl rest ih =>
    intro cnt h
    rcases hn : get_slot_name sl (sharedIn cont sl) with _ | name
    · simp [slotNamesOk, hn] at h
    · have hrest : slotNamesOk cont rest = true := by
        simp only [slotNamesOk, List.all_cons, hn, Option.isSome_some,
          Bool.true_and] at h
        exact h
      simp only [specSlotList, hn, slotNamesD, List.filterMap_cons, List.map_cons,
        finIdsB]
      rw [show List.filterMap (fun sl => get_slot_name sl (sharedIn cont sl)) rest =
        slotNamesD cont rest from rfl]
      rw [ih (bump cnt name) hrest]
      rw [if_neg (by rintro ⟨hb, _⟩; exact Bool.noConfusion hb)]
      rfl

lemma stepsIds_char (sid : String) (total : String → Nat) :
    ∀ (steps : List Step) (idx : Nat) (cnt : String → Nat),
      stepsNamesOk steps = true →
      ((specStepList sid steps idx cnt).map (fun st =>
          { st with participants := st.participants.map (cleanupSlotPure total) })).flatMap
        (fun st => st.participants.map (fun sl => sl.id)) =
        finIdsB sid total cnt ((stepsNamesD steps).map (fun n => (n, true))) := by
  intro steps
  induction steps with
  | nil => intro idx cnt _; simp [specStepList, stepsNamesD, finIdsB]
  | cons step rest ih =>
    intro idx cnt h
    have hok : slotNamesOk step.slots step.slots = true := by
      simp only [stepsNamesOk, List.all_cons, Bool.and_eq_true] at h
      exact h.1
    have hrest : stepsNamesOk rest = true := by
      simp only [stepsNamesOk, List.all_cons, Bool.and_eq_true] at h
      exact h.2
    simp only [specStepList, List.map_cons, List.flatMap_cons, stepsNamesD]
    rw [stepSlotIds_char sid (get_step_type step) total step.slots step.slots cnt hok,
      ih (idx + 1) (bumpMany cnt (slotNamesD step.slots step.slots)) hrest]
    rw [List.map_append, finIdsB_append, List.map_map, map_fst_pair]
    rfl

lemma convertSpec_ok {s : Schema} {out : SDFSchema} (h : convertSpec s = .ok out) :
    allNamesOk s = true ∧
    out.steps = (specStepList s.schema_id s.steps 0 (fun _ => 0)).map (fun st =>
      { st with participants := st.participants.map (cleanupSlotPure (totalCnt s)) }) ∧
    out.slots = (specSlotList s.schema_id s.schema_id s.slots s.slots
      (bumpMany (fun _ => 0) (stepsNamesD s.steps))).map renameRole ∧
    out.entityRelations = [] ∧ out.id = s.schema_id := by
  unfold convertSpec at h
  rcases hall : allNamesOk s with _ | _
  · rw [hall] at h
    simp at h
  · rw [hall] at h
    simp only [if_true] at h
    rcases hmiss : (((s.order.flatMap orderRefs).dedup.filter
        (fun x => decide (x ∉ s.steps.map Step.id))).isEmpty) with _ | _
    · rw [hmiss] at h
      simp at h
    · rw [hmiss] at h
      simp only [if_true] at h
      rcases hord : s.order.mapM (resolveOrder (buildStepMap s.schema_id s.steps 0 [])) with
        _ | orders
      · rw [hord] at h
        simp at h
      · rw [hord] at h
        simp only [Except.ok.injEq] at h
        subst h
        exact ⟨rfl, rfl, rfl, rfl, rfl⟩

lemma convert_ok_ids {s : Schema} {rng : Nat → String} {out : SDFSchema}
    (h : convert_yaml_to_sdf rng s = .ok out) :
    allNamesOk s = true ∧
    outSlotIds out = finIdsB s.schema_id (totalCnt s) (fun _ => 0) (pairsSchema s) := by
  rw [convert_eq_spec] at h
  obtain ⟨hall, hsteps, hslots, _, _⟩ := convertSpec_ok h
  have hsok : stepsNamesOk s.steps = true := (Bool.and_eq_true_iff.mp hall).1
  have hslok : slotNamesOk s.slots s.slots = true := (Bool.and_eq_true_iff.mp hall).2
  refine ⟨hall, ?_⟩
  unfold outSlotIds pairsSchema
  rw [hsteps, hslots]
  rw [stepsIds_char s.schema_id (totalCnt s) s.steps 0 (fun _ => 0) hsok,
    schemaSlotIds_char s.schema_id (totalCnt s) s.slots s.slots
      (bumpMany (fun _ => 0) (stepsNamesD s.steps)) hslok]
  rw [finIdsB_append, List.map_map, map_fst_pair]

lemma finIdsB_eq_map (sid : String) (total : String → Nat) :
    ∀ (pairs : List (String × Bool)) (cnt : String → Nat),
      finIdsB sid total cnt pairs = (occPairsB cnt pairs).map (finIdB sid total) := by
  intro pairs
  induction pairs with
  | nil => intro cnt; rfl
  | cons p rest ih =>
    intro cnt
    rcases p with ⟨n, b⟩
    simp only [finIdsB, occPairsB, List.map_cons, ih (bump cnt n)]
    rfl

lemma occPairsB_fst_mem :
    ∀ (pairs : List (String × Bool)) (cnt : String → Nat)
      (t : String × Nat × Bool), t ∈ occPairsB cnt pairs →
      t.1 ∈ pairs.map Prod.fst := by
  intro pairs
  induction pairs with
  | nil => intro cnt t ht; simp [occPairsB] at ht
  | cons p rest ih =>
    intro cnt t ht
    rcases p with ⟨n, b⟩
    simp only [occPairsB, List.mem_cons] at ht
    rcases ht with h | h
    · subst h; simp
    · simp only [List.map_cons, List.mem_cons]
      exact Or.inr (ih (bump cnt n) t h)

lemma occPairsB_bounds :
    ∀ (pairs : List (String × Bool)) (cnt : String → Nat)
      (t : String × Nat × Bool), t ∈ occPairsB cnt pairs →
      cnt t.1 ≤ t.2.1 ∧ t.2.1 < cnt t.1 + (pairs.map Prod.fst).count t.1 := by
  intro pairs
  induction pairs with
  | nil => intro cnt t ht; simp [occPairsB] at ht
  | cons p rest ih =>
    intro cnt t ht
    rcases p with ⟨n, b⟩
    simp only [occPairsB, List.mem_cons] at ht
    rcases ht with h | h
    · subst h
      refine ⟨le_refl _, ?_⟩
      simp only [List.map_cons, List.count_cons, beq_self_eq_true, if_true]
      omega
    · obtain ⟨h1, h2⟩ := ih (bump cnt n) t h
      by_cases he : t.1 = n
      · rw [he] at h1 h2 ⊢
        simp only [bump, eq_self_iff_true, if_true] at h1 h2
        simp only [List.map_cons, List.count_cons, beq_self_eq_true, if_true]
        omega
      · have hb : (t.1 == n) = false := beq_eq_false_iff_ne.mpr he
        simp only [bump, if_neg he] at h1 h2
        simp only [List.map_cons, List.count_cons, hb, Bool.false_eq_true, if_false]
        omega

lemma occPairsB_proj_nodup :
    ∀ (pairs : List (String × Bool)) (cnt : String → Nat),
      ((occPairsB cnt pairs).map (fun t => (t.1, t.2.1))).Nodup := by
  intro pairs
  induction pairs with
  | nil => intro cnt; simp [occPairsB]
  | cons p rest ih =>
    intro cnt
    rcases p with ⟨n, b⟩
    simp only [occPairsB, List.map_cons, List.nodup_cons]
    refine ⟨?_, ih (bump cnt n)⟩
    intro hmem
    rcases List.mem_map.mp hmem with ⟨t, ht, hte⟩
    have hb := (occPairsB_bounds rest (bump cnt n) t ht).1
    have h1 : t.1 = n := congrArg Prod.fst hte
    have h2 : t.2.1 = cnt n := congrArg Prod.snd hte
    rw [h1] at hb
    simp only [bump, eq_self_iff_true, if_true] at hb
    omega

lemma unsuff_data (sid n : String) (k : Nat) :
    (mkSlotId sid n k).data =
      (sid.data ++ "/Slots/".data) ++ (n.data ++ ['-', Char.ofNat (k + 97)]) := by
  rw [mkSlotId_data]
  simp [List.append_assoc]

lemma strip_data {sid n : String} (hsid : sidStripSafe sid = true)
    (hn : nameStripSafe n = true) :
    (String.mk (pyStripChars ['-', 'a'] (mkSlotId sid n 0).data)).data =
      (sid.data ++ "/Slots/".data) ++ n.data := by
  show pyStripChars ['-', 'a'] (mkSlotId sid n 0).data = _
  rw [pyStrip_mkSlotId hsid hn]
  simp [string_data_append, List.append_assoc]

lemma finIdB_inj {sid : String} {names : List String}
    (hsid : sidStripSafe sid = true)
    (hsafe : ∀ n ∈ names, nameStripSafe n = true ∧ ('-' ∉ n.data) ∧ names.count n ≤ 26)
    (t1 t2 : String × Nat × Bool)
    (hm1 : t1.1 ∈ names) (hm2 : t2.1 ∈ names)
    (hk1 : t1.2.1 < names.count t1.1) (hk2 : t2.2.1 < names.count t2.1)
    (heq : finIdB sid (fun n => names.count n) t1 = finIdB sid (fun n => names.count n) t2) :
    t1.1 = t2.1 ∧ t1.2.1 = t2.2.1 := by
  obtain ⟨hs1, hd1, hb1⟩ := hsafe t1.1 hm1
  obtain ⟨hs2, hd2, hb2⟩ := hsafe t2.1 hm2
  unfold finIdB at heq
  by_cases c1 : t1.2.2 = true ∧ names.count t1.1 = 1 <;>
    by_cases c2 : t2.2.2 = true ∧ names.count t2.1 = 1
  · -- both stripped
    have hk10 : t1.2.1 = 0 := by omega
    have hk20 : t2.2.1 = 0 := by omega
    rw [if_pos c1, if_pos c2, hk10, hk20] at heq
    have hd := congrArg String.data heq
    rw [strip_data hsid hs1, strip_data hsid hs2] at hd
    have := List.append_cancel_left hd
    exact ⟨string_ext this, by rw [hk10, hk20]⟩
  · -- stripped vs suffixed: the stripped name would contain a dash
    have hk10 : t1.2.1 = 0 := by omega
    rw [if_pos c1, if_neg c2, hk10] at heq
    have hd := congrArg String.data heq
    rw [strip_data hsid hs1, unsuff_data] at hd
    have h1 := List.append_cancel_left hd
    exact absurd (by rw [h1]; simp : '-' ∈ t1.1.data) hd1
  · -- suffixed vs stripped (symmetric)
    have hk20 : t2.2.1 = 0 := by omega
    rw [if_neg c1, if_pos c2, hk20] at heq
    have hd := congrArg String.data heq
    rw [strip_data hsid hs2, unsuff_data] at hd
    have h1 := (List.append_cancel_left hd).symm
    exact absurd (by rw [h1]; simp : '-' ∈ t2.1.data) hd2
  · -- both suffixed
    rw [if_neg c1, if_neg c2] at heq
    have hd := congrArg String.data heq
    rw [unsuff_data, unsuff_data] at hd
    have h1 := List.append_cancel_left hd
    obtain ⟨hn, hch⟩ := List.append_inj' h1 (by simp)
    have hcc : Char.ofNat (t1.2.1 + 97) = Char.ofNat (t2.2.1 + 97) := by
      simpa using hch
    have hkk : t1.2.1 + 97 = t2.2.1 + 97 :=
      charOfNat_inj (by omega) (by omega) hcc
    exact ⟨string_ext hn, by omega⟩

lemma pairsSchema_fst (s : Schema) : (pairsSchema s).map Prod.fst = allNamesD s := by
  unfold pairsSchema allNamesD
  rw [List.map_append, List.map_map, List.map_map, map_fst_pair, map_fst_pair]

/-- C2 (amended): within one compiled schema the synthesized slot ids are
pairwise distinct *provided* the cleanup strip is harmless: no derived name
is empty, contains a dash, or ends in the letter a, no name is synthesized
more than 26 times, and the schema id does not begin with a dash or the
letter a.  (Without these conditions `strip("-a")` can merge distinct ids —
see the counterexample.) -/
theorem claim_C2_uniqueness (s : Schema) (rng : Nat → String) (out : SDFSchema)
    (hsafe : uniqSafe s = true) (h : convert_yaml_to_sdf rng s = .ok out) :
    (outSlotIds out).Nodup := by
  obtain ⟨hall, hids⟩ := convert_ok_ids h
  rw [hids, finIdsB_eq_map]
  obtain ⟨hsid, hnames⟩ := Bool.and_eq_true_iff.mp hsafe
  have hsafe' : ∀ n ∈ allNamesD s,
      nameStripSafe n = true ∧ ('-' ∉ n.data) ∧ (allNamesD s).count n ≤ 26 := by
    intro n hn
    have hthis := List.all_eq_true.mp hnames n hn
    rcases Bool.and_eq_true_iff.mp hthis with ⟨h12, h3⟩
    rcases Bool.and_eq_true_iff.mp h12 with ⟨ha, hb⟩
    exact ⟨ha, by simpa using hb, by simpa using h3⟩
  have hproj := occPairsB_proj_nodup (pairsSchema s) (fun _ => 0)
  have hnodup : (occPairsB (fun _ => 0) (pairsSchema s)).Nodup :=
    List.Nodup.of_map _ hproj
  refine List.Nodup.map_on ?_ hnodup
  intro x hx y hy hxy
  have hbx := (occPairsB_bounds (pairsSchema s) (fun _ => 0) x hx).2
  have hby := (occPairsB_bounds (pairsSchema s) (fun _ => 0) y hy).2
  rw [pairsSchema_fst] at hbx hby
  have hmx : x.1 ∈ allNamesD s := by
    rw [← pairsSchema_fst]; exact occPairsB_fst_mem _ _ x hx
  have hmy : y.1 ∈ allNamesD s := by
    rw [← pairsSchema_fst]; exact occPairsB_fst_mem _ _ y hy
  obtain ⟨he1, he2⟩ := finIdB_inj hsid hsafe' x y hmx hmy
    (by simpa using hbx) (by simpa using hby) hxy
  exact List.inj_on_of_nodup_map hproj hx hy (by rw [he1, he2])

/-! ## Split/join and slot-name lemmas -/

lemma splitDots_ne_nil : ∀ l : List Char, splitDots l ≠ [] := by
  intro l
  induction l with
  | nil => simp [splitDots]
  | cons c rest ih =>
    by_cases hc : c = '.'
    · simp [splitDots, hc]
    · simp only [splitDots, if_neg hc]
      rcases splitDots rest with _ | ⟨w, ws⟩ <;> simp

lemma joinDots_splitDots : ∀ l : List Char, joinDots (splitDots l) = l := by
  intro l
  induction l with
  | nil => rfl
  | cons c rest ih =>
    by_cases hc : c = '.'
    · rcases hr : splitDots rest with _ | ⟨w, ws⟩
      · exact absurd hr (splitDots_ne_nil rest)
      · subst hc
        simp only [splitDots, if_pos rfl, hr]
        show '.' :: joinDots (w :: ws) = '.' :: rest
        rw [← hr, ih]
    · rcases hr : splitDots rest with _ | ⟨w, ws⟩
      · exact absurd hr (splitDots_ne_nil rest)
      · simp only [splitDots, if_neg hc, hr]
        rcases ws with _ | ⟨v, vs⟩
        · show c :: w = c :: rest
          rw [← ih, hr]
          rfl
        · show (c :: w) ++ '.' :: joinDots (v :: vs) = c :: rest
          rw [← ih, hr]
          rfl

lemma firstWord_eq_nil_iff (l : List Char) :
    firstWord l = [] ↔ l.all Char.isWhitespace = true := by
  induction l with
  | nil => simp [firstWord]
  | cons c rest ih =>
    by_cases hw : c.isWhitespace
    · unfold firstWord at ih ⊢
      rw [List.dropWhile_cons, if_pos (by exact hw)]
      simp [ih, hw]
    · unfold firstWord
      rw [List.dropWhile_cons, if_neg (by exact hw)]
      rw [List.takeWhile_cons]
      rw [if_pos (by simp [hw])]
      simp [hw]

lemma expanded_all_ws (role : List Char) :
    ((role.flatMap (fun c => if c.isUpper then [' ', c] else [c])).all
      Char.isWhitespace) = role.all Char.isWhitespace := by
  induction role with
  | nil => rfl
  | cons c rest ih =>
    by_cases hu : c.isUpper
    · simp only [List.flatMap_cons, if_pos hu, List.all_append, List.all_cons, ih,
        List.all_nil]
      simp [show (' ' : Char).isWhitespace = true from rfl]
    · simp only [List.flatMap_cons, if_neg hu, List.all_append, List.all_cons, ih,
        List.all_nil]
      simp

lemma get_slot_name_none_iff (sl : Slot) (sh : Bool) :
    get_slot_name sl sh = none ↔ sl.role.data.all Char.isWhitespace = true := by
  unfold get_slot_name
  rcases hf : firstWord (sl.role.data.flatMap
      (fun c => if c.isUpper then [' ', c] else [c])) with _ | ⟨w, ws⟩
  · simp only [hf]
    constructor
    · intro _
      rw [← expanded_all_ws]
      exact (firstWord_eq_nil_iff _).mp hf
    · intro _; trivial
  · simp only [hf]
    constructor
    · intro h; exact Option.noConfusion h
    · intro h
      rw [← expanded_all_ws] at h
      rw [(firstWord_eq_nil_iff _).mpr h] at hf
      exact List.noConfusion hf

lemma convert_indexError_of_ws_slot (s : Schema) (rng : Nat → String) (sl : Slot)
    (hws : sl.role.data.all Char.isWhitespace = true)
    (hmem : sl ∈ s.steps.flatMap Step.slots ∨ sl ∈ s.slots) :
    convert_yaml_to_sdf rng s = .error .indexError := by
  have hnone : ∀ sh, get_slot_name sl sh = none :=
    fun sh => (get_slot_name_none_iff sl sh).mpr hws
  have hallf : allNamesOk s = false := by
    rcases hmem with hmem | hmem
    · obtain ⟨stp, hstp, hsl⟩ := List.mem_flatMap.mp hmem
      have h1 : slotNamesOk stp.slots stp.slots = false := by
        apply Bool.eq_false_iff.mpr
        intro hall
        have h2 := List.all_eq_true.mp hall sl hsl
        rw [hnone _] at h2
        simp at h2
      have h2 : stepsNamesOk s.steps = false := by
        apply Bool.eq_false_iff.mpr
        intro hall
        have h3 := List.all_eq_true.mp hall stp hstp
        rw [h1] at h3
        exact Bool.noConfusion h3
      simp [allNamesOk, h2]
    · have h1 : slotNamesOk s.slots s.slots = false := by
        apply Bool.eq_false_iff.mpr
        intro hall
        have h2 := List.all_eq_true.mp hall sl hmem
        rw [hnone _] at h2
        simp at h2
      simp [allNamesOk, h1]
  rw [convert_eq_spec]
  unfold convertSpec
  rw [hallf]
  rfl

lemma missingOrderIds_nodup (s : Schema) : (missingOrderIds s).Nodup :=
  List.Nodup.filter _ (List.nodup_dedup _)

lemma missingOrderIds_mem (s : Schema) (x : String) :
    x ∈ missingOrderIds s ↔
      x ∈ s.order.flatMap orderRefs ∧ x ∉ s.steps.map Step.id := by
  simp [missingOrderIds, List.mem_filter, List.mem_dedup]

lemma convert_missing_error (s : Schema) (rng : Nat → String)
    (hok : allNamesOk s = true) (hne : missingOrderIds s ≠ []) :
    convert_yaml_to_sdf rng s = .error (.missingSteps
      ((missingOrderIds s).map (fun m =>
        "The ID " ++ m ++ " in order is not in steps"))) := by
  rw [convert_eq_spec]
  unfold convertSpec
  rw [hok]
  simp only [if_true]
  rw [if_neg (by
    intro he
    exact hne (by
      have := List.isEmpty_iff.mp he
      exact this))]
  rfl

lemma specSlotList_getElem? (sid tp : String) (cont : List Slot) :
    ∀ (l : List Slot) (cnt : String → Nat) (j : Nat) (sl : Slot),
      l[j]? = some sl → slotNamesOk cont l = true →
      ∃ name k, get_slot_name sl (sharedIn cont sl) = some name ∧
        (specSlotList sid tp cont l cnt)[j]? = some (mkSDFSlot sid tp sl name k) := by
  intro l
  induction l with
  | nil => intro cnt j sl h _; simp at h
  | cons hd rest ih =>
    intro cnt j sl hj hok
    have hokh : (get_slot_name hd (sharedIn cont hd)).isSome = true := by
      have := List.all_eq_true.mp hok hd (by simp)
      exact this
    rcases hn : get_slot_name hd (sharedIn cont hd) with _ | name0
    · rw [hn] at hokh; simp at hokh
    · have hrest : slotNamesOk cont rest = true := by
        simp only [slotNamesOk, List.all_cons, hn, Option.isSome_some,
          Bool.true_and] at hok
        exact hok
      cases j with
      | zero =>
        rw [List.getElem?_cons_zero] at hj
        have hsl : hd = sl := Option.some.inj hj
        subst hsl
        exact ⟨name0, cnt name0, hn, by simp [specSlotList, hn]⟩
      | succ j =>
        rw [List.getElem?_cons_succ] at hj
        obtain ⟨name, k, h1, h2⟩ := ih (bump cnt name0) j sl hj hrest
        exact ⟨name, k, h1, by simp [specSlotList, hn, h2]⟩

lemma specStepList_getElem? (sid : String) :
    ∀ (steps : List Step) (idx : Nat) (cnt : String → Nat) (i : Nat) (stp : Step),
      steps[i]? = some stp →
      ∃ cnt', (specStepList sid steps idx cnt)[i]? = some
        { id := get_step_id stp sid
          name := stp.id
          type := get_step_type stp
          comment := stepComment (idx + i) stp
          participants :=
            specSlotList sid (get_step_type stp) stp.slots stp.slots cnt' } := by
  intro steps
  induction steps with
  | nil => intro idx cnt i stp h; simp at h
  | cons hd rest ih =>
    intro idx cnt i stp hi
    cases i with
    | zero =>
      rw [List.getElem?_cons_zero] at hi
      have hst : hd = stp := Option.some.inj hi
      subst hst
      exact ⟨cnt, by simp [specStepList]⟩
    | succ i =>
      rw [List.getElem?_cons_succ] at hi
      obtain ⟨cnt', h⟩ :=
        ih (idx + 1) (bumpMany cnt (slotNamesD hd.slots hd.slots)) i stp hi
      refine ⟨cnt', ?_⟩
      simp only [specStepList, List.getElem?_cons_succ, h]
      rw [show idx + 1 + i = idx + (i + 1) from by omega]

lemma occPairsB_getElem? :
    ∀ (pairs : List (String × Bool)) (cnt : String → Nat) (i : Nat)
      (p : String × Bool), pairs[i]? = some p →
      (occPairsB cnt pairs)[i]? =
        some (p.1, cnt p.1 + ((pairs.take i).map Prod.fst).count p.1, p.2) := by
  intro pairs
  induction pairs with
  | nil => intro cnt i p h; simp at h
  | cons q rest ih =>
    intro cnt i p hi
    rcases q with ⟨n, b⟩
    cases i with
    | zero =>
      rw [List.getElem?_cons_zero] at hi
      have : (n, b) = p := Option.some.inj hi
      subst this
      simp [occPairsB]
    | succ i =>
      rw [List.getElem?_cons_succ] at hi
      have h2 := ih (bump cnt n) i p hi
      simp only [occPairsB, List.getElem?_cons_succ, h2, List.take_succ_cons,
        List.map_cons, List.count_cons]
      by_cases he : p.1 = n
      · rw [he]
        simp only [bump, eq_self_iff_true, if_true, beq_self_eq_true]
        rw [show (cnt n + 1) + (List.count n ((rest.take i).map Prod.fst)) =
          cnt n + (List.count n ((rest.take i).map Prod.fst) + 1) from by omega]
      · have hb : (p.1 == n) = false := beq_eq_false_iff_ne.mpr he
        have hb2 : (n == p.1) = false := beq_eq_false_iff_ne.mpr (Ne.symm he)
        simp only [bump, if_neg he, hb, hb2, Bool.false_eq_true, if_false,
          Nat.add_zero]

lemma count_take_lt {l : List String} {i : Nat} {n : String}
    (h : l[i]? = some n) : (l.take i).count n < l.count n := by
  conv_rhs => rw [← List.take_append_drop i l]
  rw [List.count_append]
  have hmem : n ∈ l.drop i := by
    have hd : (l.drop i)[0]? = some n := by
      rw [List.getElem?_drop]
      simpa using h
    exact List.mem_iff_getElem?.mpr ⟨0, hd⟩
  have hpos : 0 < (l.drop i).count n := List.count_pos_iff.mpr hmem
  omega

lemma pyLookup_pyInsert_self {α : Type} :
    ∀ (m : List (String × α)) (k : String) (v : α),
      pyLookup (pyInsert m k v) k = some v := by
  intro m
  induction m with
  | nil => intro k v; simp [pyInsert, pyLookup]
  | cons q rest ih =>
    intro k v
    rcases q with ⟨k0, v0⟩
    by_cases he : k0 = k
    · simp [pyInsert, pyLookup, he]
    · simp [pyInsert, pyLookup, if_neg he, ih]

lemma cleanupSlotPure_refvar (cnt : String → Nat) (x : SDFSlot) :
    (cleanupSlotPure cnt x).refvar = x.refvar := by
  unfold cleanupSlotPure; split <;> rfl

lemma cleanupSlotPure_role (cnt : String → Nat) (x : SDFSlot) :
    (cleanupSlotPure cnt x).role = x.role := by
  unfold cleanupSlotPure; split <;> rfl

lemma cleanupSlotPure_name (cnt : String → Nat) (x : SDFSlot) :
    (cleanupSlotPure cnt x).name = x.name := by
  unfold cleanupSlotPure; split <;> rfl

lemma allNamesD_getElem? {s : Schema} {i : Nat} {n : String} {b : Bool}
    (hp : (pairsSchema s)[i]? = some (n, b)) : (allNamesD s)[i]? = some n := by
  rw [← pairsSchema_fst, List.getElem?_map, hp]
  rfl

lemma outSlotIds_getElem? {s : Schema} {rng : Nat → String} {out : SDFSchema}
    (hsafe : stripSafeB s = true) (h : convert_yaml_to_sdf rng s = .ok out) :
    ∀ (i : Nat) (n : String) (b : Bool), (pairsSchema s)[i]? = some (n, b) →
      (outSlotIds out)[i]? = some (
        if b = true ∧ (allNamesD s).count n = 1 then
          s.schema_id ++ "/Slots/" ++ n
        else mkSlotId s.schema_id n (((allNamesD s).take i).count n)) := by
  obtain ⟨hall, hids⟩ := convert_ok_ids h
  obtain ⟨hsid, hnames⟩ := Bool.and_eq_true_iff.mp hsafe
  intro i n b hp
  have hocc := occPairsB_getElem? (pairsSchema s) (fun _ => 0) i (n, b) hp
  rw [hids, finIdsB_eq_map, List.getElem?_map, hocc]
  have hcnt : ((pairsSchema s).take i).map Prod.fst = (allNamesD s).take i := by
    rw [List.map_take, pairsSchema_fst]
  have hnn : (allNamesD s)[i]? = some n := allNamesD_getElem? hp
  have hmem : n ∈ allNamesD s := List.mem_iff_getElem?.mpr ⟨i, hnn⟩
  have hns : nameStripSafe n = true := List.all_eq_true.mp hnames n hmem
  simp only [Option.map_some']
  unfold finIdB
  simp only [totalCnt, hcnt, Nat.zero_add]
  by_cases hc : b = true ∧ (allNamesD s).count n = 1
  · rw [if_pos hc, if_pos hc]
    have hk0 : ((allNamesD s).take i).count n = 0 := by
      have := count_take_lt hnn
      omega
    rw [hk0]
    exact congrArg some (string_ext (strip_data hsid hns))
  · rw [if_neg hc, if_neg hc]

lemma joinDots_append_singleton :
    ∀ (l : List (List Char)) (x : List Char), l ≠ [] →
      joinDots (l ++ [x]) = joinDots l ++ '.' :: x := by
  intro l
  induction l with
  | nil => intro x h; exact absurd rfl h
  | cons w ws ih =>
    intro x _
    rcases ws with _ | ⟨v, vs⟩
    · rfl
    · show w ++ '.' :: joinDots ((v :: vs) ++ [x]) =
        (w ++ '.' :: joinDots (v :: vs)) ++ '.' :: x
      rw [ih x (by simp)]
      simp [List.append_assoc]

lemma get_step_type_eq (stp : Step) :
    get_step_type stp = "kairos:Primitives/Events/" ++ String.mk (joinDots
      (splitDots stp.primitive.data ++
        List.replicate (3 - (splitDots stp.primitive.data).length) "Unspecified".data)) := by
  simp only [get_step_type]
  by_cases hlt : (splitDots stp.primitive.data).length < 3
  · rw [if_pos hlt]
  · rw [if_neg hlt]
    have h0 : 3 - (splitDots stp.primitive.data).length = 0 := by omega
    rw [h0]
    simp

/-- C4: the canonical step type is computed by splitting the primitive on
dots, right-padding with the literal segment Unspecified until 3 segments
exist, rejoining with dots and prefixing: a 1-segment primitive X becomes
kairos:Primitives/Events/X.Unspecified.Unspecified, a 2-segment X.Y becomes
kairos:Primitives/Events/X.Y.Unspecified, and a 3-segment X.Y.Z is passed
through unchanged. -/
theorem claim_C4_type_padding (stp : Step) :
    ((splitDots stp.primitive.data).length = 1 →
      get_step_type stp =
        "kairos:Primitives/Events/" ++ stp.primitive ++ ".Unspecified.Unspecified") ∧
    ((splitDots stp.primitive.data).length = 2 →
      get_step_type stp =
        "kairos:Primitives/Events/" ++ stp.primitive ++ ".Unspecified") ∧
    ((splitDots stp.primitive.data).length = 3 →
      get_step_type stp = "kairos:Primitives/Events/" ++ stp.primitive) := by
  have hjs := joinDots_splitDots stp.primitive.data
  have hne := splitDots_ne_nil stp.primitive.data
  refine ⟨?_, ?_, ?_⟩
  · intro hlen
    rw [get_step_type_eq, hlen]
    apply string_ext
    rw [show (List.replicate (3 - 1) "Unspecified".data) =
      ["Unspecified".data, "Unspecified".data] from rfl]
    rw [show (splitDots stp.primitive.data ++ ["Unspecified".data, "Unspecified".data]) =
      ((splitDots stp.primitive.data ++ ["Unspecified".data]) ++ ["Unspecified".data])
      from by simp]
    rw [joinDots_append_singleton _ _ (by simp [hne]),
      joinDots_append_singleton _ _ hne, hjs]
    simp only [string_data_append]
    simp [List.append_assoc]
  · intro hlen
    rw [get_step_type_eq, hlen]
    apply string_ext
    rw [show (List.replicate (3 - 2) "Unspecified".data) = ["Unspecified".data] from rfl]
    rw [joinDots_append_singleton _ _ hne, hjs]
    simp only [string_data_append]
    simp [List.append_assoc]
  · intro hlen
    rw [get_step_type_eq, hlen]
    apply string_ext
    rw [show (3 - 3 : Nat) = 0 from rfl]
    simp only [List.replicate, List.append_nil, hjs, string_data_append]

/-- Witness for C4: the three padding cases at concrete primitives. -/
theorem claim_C4_type_padding_witness :
    (splitDots ("X" : String).data).length = 1 ∧
    get_step_type stepX = "kairos:Primitives/Events/X.Unspecified.Unspecified" ∧
    (splitDots ("X.Y" : String).data).length = 2 ∧
    get_step_type stepXY = "kairos:Primitives/Events/X.Y.Unspecified" ∧
    (splitDots ("X.Y.Z" : String).data).length = 3 ∧
    get_step_type stepXYZ = "kairos:Primitives/Events/X.Y.Z" := by
  refine ⟨by decide, ?_, by decide, ?_, by decide, ?_⟩
  · have h := (claim_C4_type_padding stepX).1 (by decide)
    simpa using h
  · have h := (claim_C4_type_padding stepXY).2.1 (by decide)
    simpa using h
  · have h := (claim_C4_type_padding stepXYZ).2.2 (by decide)
    simpa using h

/-- C10: slot-name derivation is partial: for a slot whose role is empty or
has no non-whitespace characters left after CamelCase word-splitting,
`get_slot_name` raises (modelled as `none`), and compiling any schema
containing such a slot aborts with the uncaught `IndexError` rather than
producing output or a validation diagnostic. -/
theorem claim_C10_empty_role_crash (sl : Slot) (sh : Bool) (s : Schema)
    (rng : Nat → String)
    (hws : sl.role.data.all Char.isWhitespace = true)
    (hmem : sl ∈ s.steps.flatMap Step.slots ∨ sl ∈ s.slots) :
    get_slot_name sl sh = none ∧
      convert_yaml_to_sdf rng s = .error .indexError :=
  ⟨(get_slot_name_none_iff sl sh).mpr hws,
    convert_indexError_of_ws_slot s rng sl hws hmem⟩

/-- Witness for C10 at a concrete whitespace-role slot. -/
theorem claim_C10_empty_role_crash_witness :
    get_slot_name slotWs false = none ∧
      convert_yaml_to_sdf (fun _ => "") schemaWs = .error .indexError :=
  claim_C10_empty_role_crash slotWs false schemaWs (fun _ => "")
    (by decide) (by decide)

/-- C1 (amended): for every schema all of whose slot roles yield derivable
names (so the earlier `get_slot_name` crash does not pre-empt validation —
see the counterexample), if any order relation references step ids that are
not declared (the set difference of referenced ids against declared ids is
non-empty), the compiler reports one error message naming each missing id
and aborts with a fatal error without producing any canonical output. -/
theorem claim_C1_order_validation (s : Schema) (rng : Nat → String)
    (hnames : allNamesOk s = true) (hne : missingOrderIds s ≠ []) :
    convert_yaml_to_sdf rng s = .error (.missingSteps
      ((missingOrderIds s).map (fun m =>
        "The ID " ++ m ++ " in order is not in steps"))) ∧
    (missingOrderIds s).Nodup ∧
    (∀ x, x ∈ missingOrderIds s ↔
      x ∈ s.order.flatMap orderRefs ∧ x ∉ s.steps.map Step.id) :=
  ⟨convert_missing_error s rng hnames hne, missingOrderIds_nodup s,
    fun x => missingOrderIds_mem s x⟩

/-- Witness for C1: a concrete schema referencing the undeclared steps
`missing-step` and `zz` aborts with one error per missing id. -/
theorem claim_C1_order_validation_witness :
    allNamesOk schemaMissingRef = true ∧ missingOrderIds schemaMissingRef ≠ [] ∧
    convert_yaml_to_sdf (fun _ => "") schemaMissingRef = .error (.missingSteps
      ((missingOrderIds schemaMissingRef).map (fun m =>
        "The ID " ++ m ++ " in order is not in steps"))) ∧
    (missingOrderIds schemaMissingRef).Nodup ∧
    ("missing-step" ∈ missingOrderIds schemaMissingRef ↔
      "missing-step" ∈ schemaMissingRef.order.flatMap orderRefs ∧
        "missing-step" ∉ schemaMissingRef.steps.map Step.id) :=
  ⟨by decide, by decide,
    (claim_C1_order_validation schemaMissingRef (fun _ => "")
      (by decide) (by decide)).1,
    (claim_C1_order_validation schemaMissingRef (fun _ => "")
      (by decide) (by decide)).2.1,
    (claim_C1_order_validation schemaMissingRef (fun _ => "")
      (by decide) (by decide)).2.2 "missing-step"⟩

/-- C3: the conversion is a deterministic function of the authored schema:
the `random.random()` placeholder values recorded in the entity map never
reach the canonical output, so two runs (modelled by two arbitrary RNG
supplies) produce identical results, with identifier ties broken by
declaration order through the slot counter. -/
theorem claim_C3_determinism (s : Schema) (rng rng' : Nat → String) :
    convert_yaml_to_sdf rng s = convert_yaml_to_sdf rng' s := by
  rw [convert_eq_spec, convert_eq_spec]

/-- Counterexample to C2 as stated: `schemaAAa` compiles successfully yet both
emitted slot ids are the string `cmu:T/Slots/`, so slot ids are not unique. -/
theorem claim_C2_uniqueness_cex :
    Except.map outSlotIds (convert_yaml_to_sdf (fun _ => "") schemaAAa) =
      .ok ["cmu:T/Slots/", "cmu:T/Slots/"] ∧
    ¬(["cmu:T/Slots/", "cmu:T/Slots/"] : List String).Nodup :=
  ⟨by rfl, by decide⟩

/-- Witness for the amended C2 at the concrete schema `W2`. -/
theorem claim_C2_uniqueness_witness :
    uniqSafe W2 = true ∧ (outSlotIds W2out).Nodup :=
  ⟨by decide, claim_C2_uniqueness W2 (fun _ => "") W2out (by decide) (by rfl)⟩

/-- Counterexample to C5 as stated: the role `Victim` appears exactly once in
each container (each step's slot list), yet both emitted ids carry a
disambiguator suffix, because the counter is kept per schema, not per
container. -/
theorem claim_C5_disambiguators_cex :
    (schemaVictimTwice.steps.map (fun stp =>
      stp.slots.countP (fun s2 => decide (s2.role = "Victim")))) = [1, 1] ∧
    Except.map outSlotIds (convert_yaml_to_sdf (fun _ => "") schemaVictimTwice) =
      .ok ["cmu:T/Slots/victim-a", "cmu:T/Slots/victim-b"] ∧
    ("cmu:T/Slots/victim-a" : String) ≠ "cmu:T/Slots/victim" :=
  ⟨by decide, by rfl, by decide⟩

/-- C5 (amended): disambiguators come from a per-schema counter keyed by
derived slot name, not from the slot's container: the slot at overall
position i with derived name n gets suffix `chr(97 + k)` where k is the
number of earlier occurrences of n anywhere in the schema, and the suffix is
absent exactly when n is synthesized once in the whole schema and the slot
is a step participant (the cleanup pass never visits schema-level slots). -/
theorem claim_C5_disambiguators (s : Schema) (rng : Nat → String) (out : SDFSchema)
    (i : Nat) (n : String) (b : Bool)
    (hsafe : stripSafeB s = true) (h : convert_yaml_to_sdf rng s = .ok out)
    (hp : (pairsSchema s)[i]? = some (n, b)) :
    (outSlotIds out)[i]? = some (
      if b = true ∧ (allNamesD s).count n = 1 then
        s.schema_id ++ "/Slots/" ++ n
      else s.schema_id ++ "/Slots/" ++ n ++ "-" ++
        String.singleton (Char.ofNat (((allNamesD s).take i).count n + 97))) := by
  have hh := outSlotIds_getElem? hsafe h i n b hp
  rw [hh]
  rfl

/-- Witness for the amended C5: in `schemaVictimTwice`, the first and second
occurrences of the name `victim` get suffixes `-a` and `-b`. -/
theorem claim_C5_disambiguators_witness :
    stripSafeB schemaVictimTwice = true ∧
    (outSlotIds W5out)[0]? = some "cmu:T/Slots/victim-a" ∧
    (outSlotIds W5out)[1]? = some "cmu:T/Slots/victim-b" := by
  refine ⟨by decide, ?_, ?_⟩
  · have h := claim_C5_disambiguators schemaVictimTwice (fun _ => "") W5out 0 "victim"
      true (by decide) (by rfl) (by decide)
    rw [if_neg (by decide)] at h
    exact h.trans (by rfl)
  · have h := claim_C5_disambiguators schemaVictimTwice (fun _ => "") W5out 1 "victim"
      true (by decide) (by rfl) (by decide)
    rw [if_neg (by decide)] at h
    exact h.trans (by rfl)

/-- Counterexample to C6 as stated: the derived name `victim` has final
counter value 1, yet the schema-level slot keeps its `-a` suffix — the
cleanup pass iterates over step participants only and never visits
schema-level slots. -/
theorem claim_C6_cleanup_cex :
    (allNamesD schemaSlotOnly).count "victim" = 1 ∧
    Except.map (fun out => out.slots.map (fun sl => sl.id))
        (convert_yaml_to_sdf (fun _ => "") schemaSlotOnly) =
      .ok ["cmu:T/Slots/victim-a"] ∧
    ("cmu:T/Slots/victim-a" : String) ≠ "cmu:T/Slots/victim" :=
  ⟨by decide, by rfl, by decide⟩

/-- C6 (amended): the cleanup pass applies only to step participants, not to
schema-level slots.  For a step participant whose derived name has final
counter 1 (and under strip-safety), `strip("-a")` removes exactly the
trailing `-a`; a schema-level slot keeps its synthesized id, suffix
included; and when a slot is rewritten, the entity map is re-keyed so that
the saved value is found under the new id. -/
theorem claim_C6_cleanup (s : Schema) (rng : Nat → String) (out : SDFSchema)
    (hsafe : stripSafeB s = true) (h : convert_yaml_to_sdf rng s = .ok out) :
    (∀ (i : Nat) (n : String), (pairsSchema s)[i]? = some (n, true) →
      (allNamesD s).count n = 1 →
      (outSlotIds out)[i]? = some (s.schema_id ++ "/Slots/" ++ n) ∧
      (s.schema_id ++ "/Slots/" ++ n).data ++ ['-', 'a'] =
        (mkSlotId s.schema_id n 0).data) ∧
    (∀ (i : Nat) (n : String), (pairsSchema s)[i]? = some (n, false) →
      (outSlotIds out)[i]? =
        some (mkSlotId s.schema_id n (((allNamesD s).take i).count n))) ∧
    (∀ (cnt : String → Nat) (emap : List (String × String)) (sl : SDFSlot)
      (v : String), cnt sl.name = 1 → pyLookup emap sl.id = some v →
      pyLookup (cleanupSlot cnt emap sl).2 (cleanupSlot cnt emap sl).1.id =
        some v) := by
  refine ⟨?_, ?_, ?_⟩
  · intro i n hp hcnt
    have hh := outSlotIds_getElem? hsafe h i n true hp
    rw [if_pos ⟨rfl, hcnt⟩] at hh
    refine ⟨hh, ?_⟩
    have hch : Char.ofNat (0 + 97) = 'a' := by decide
    rw [mkSlotId_data, hch]
    simp [string_data_append, List.append_assoc]
  · intro i n hp
    have hh := outSlotIds_getElem? hsafe h i n false hp
    rw [if_neg (by rintro ⟨hb, _⟩; exact Bool.noConfusion hb)] at hh
    exact hh
  · intro cnt emap sl v hc hv
    unfold cleanupSlot
    rw [if_pos hc]
    simp only [hv, Option.getD_some]
    exact pyLookup_pyInsert_self _ _ _

/-- Witness for the amended C6 on `W2`: the step participant `victim`
(counter 1) loses exactly `-a`, the schema-level slot `patient` keeps its
suffix, and the entity map is re-keyed under the stripped id. -/
theorem claim_C6_cleanup_witness :
    (outSlotIds W2out)[0]? = some "cmu:T/Slots/victim" ∧
    ("cmu:T/Slots/victim" : String).data ++ ['-', 'a'] =
      (mkSlotId "cmu:T" "victim" 0).data ∧
    (outSlotIds W2out)[2]? = some (mkSlotId "cmu:T" "patient" 0) ∧
    pyLookup (cleanupSlot (fun _ => 1) emapW slW).2
      (cleanupSlot (fun _ => 1) emapW slW).1.id = some "v" := by
  have hc := claim_C6_cleanup W2 (fun _ => "") W2out (by decide) (by rfl)
  refine ⟨?_, ?_, ?_, ?_⟩
  · exact ((hc.1 0 "victim" (by decide) (by decide)).1).trans (by rfl)
  · exact (hc.1 0 "victim" (by decide) (by decide)).2
  · exact (hc.2.1 2 "patient" (by decide)).trans (by rfl)
  · exact hc.2.2 (fun _ => 1) emapW slW "v" (by decide) (by decide)

lemma cleanupSlotPure_roleName (cnt : String → Nat) (x : SDFSlot) :
    (cleanupSlotPure cnt x).roleName = x.roleName := by
  unfold cleanupSlotPure; split <;> rfl

lemma out_participant {s : Schema} {rng : Nat → String} {out : SDFSchema}
    (h : convert_yaml_to_sdf rng s = .ok out) {i j : Nat} {stp : Step} {sl : Slot}
    (hi : s.steps[i]? = some stp) (hj : stp.slots[j]? = some sl) :
    ∃ ost name k, out.steps[i]? = some ost ∧
      ost.participants[j]? = some (cleanupSlotPure (totalCnt s)
        (mkSDFSlot s.schema_id (get_step_type stp) sl name k)) ∧
      get_slot_name sl (sharedIn stp.slots sl) = some name := by
  rw [convert_eq_spec] at h
  obtain ⟨hall, hsteps, _, _, _⟩ := convertSpec_ok h
  have hsok : stepsNamesOk s.steps = true := (Bool.and_eq_true_iff.mp hall).1
  have hstpmem : stp ∈ s.steps := List.mem_iff_getElem?.mpr ⟨i, hi⟩
  have hslotok : slotNamesOk stp.slots stp.slots = true :=
    List.all_eq_true.mp hsok stp hstpmem
  obtain ⟨cnt', hspec⟩ := specStepList_getElem? s.schema_id s.steps 0 (fun _ => 0) i stp hi
  obtain ⟨name, k, hname, hsl⟩ :=
    specSlotList_getElem? s.schema_id (get_step_type stp) stp.slots stp.slots cnt' j sl
      hj hslotok
  refine ⟨{ id := get_step_id stp s.schema_id, name := stp.id,
            type := get_step_type stp, comment := stepComment (0 + i) stp,
            participants := (specSlotList s.schema_id (get_step_type stp)
              stp.slots stp.slots cnt').map (cleanupSlotPure (totalCnt s)) },
          name, k, ?_, ?_, hname⟩
  · rw [hsteps, List.getElem?_map, hspec]
    rfl
  · show (((specSlotList s.schema_id (get_step_type stp) stp.slots stp.slots
      cnt').map (cleanupSlotPure (totalCnt s))))[j]? = _
    rw [List.getElem?_map, hsl]
    rfl

lemma out_schemaslot {s : Schema} {rng : Nat → String} {out : SDFSchema}
    (h : convert_yaml_to_sdf rng s = .ok out) {j : Nat} {sl : Slot}
    (hj : s.slots[j]? = some sl) :
    ∃ name k, out.slots[j]? =
      some (renameRole (mkSDFSlot s.schema_id s.schema_id sl name k)) ∧
      get_slot_name sl (sharedIn s.slots sl) = some name := by
  rw [convert_eq_spec] at h
  obtain ⟨hall, _, hslots, _, _⟩ := convertSpec_ok h
  have hslok : slotNamesOk s.slots s.slots = true := (Bool.and_eq_true_iff.mp hall).2
  obtain ⟨name, k, hname, hsl⟩ :=
    specSlotList_getElem? s.schema_id s.schema_id s.slots s.slots
      (bumpMany (fun _ => 0) (stepsNamesD s.steps)) j sl hj hslok
  refine ⟨name, k, ?_, hname⟩
  rw [hslots, List.getElem?_map, hsl]
  rfl

/-- C7: every authored `refvar` is carried through unchanged onto the
corresponding canonical slot (step participants and schema-level slots
alike), and the compiled schema's `entityRelations` list is always empty
(its derivation is commented out in the source). -/
theorem claim_C7_refvar_passthrough (s : Schema) (rng : Nat → String)
    (out : SDFSchema) (h : convert_yaml_to_sdf rng s = .ok out) :
    out.entityRelations = [] ∧
    (∀ (i j : Nat) (stp : Step) (sl : Slot) (r : String),
      s.steps[i]? = some stp → stp.slots[j]? = some sl → sl.refvar = some r →
      ∃ ost osl, out.steps[i]? = some ost ∧ ost.participants[j]? = some osl ∧
        osl.refvar = some r) ∧
    (∀ (j : Nat) (sl : Slot) (r : String),
      s.slots[j]? = some sl → sl.refvar = some r →
      ∃ osl, out.slots[j]? = some osl ∧ osl.refvar = some r) := by
  refine ⟨?_, ?_, ?_⟩
  · have h' := h
    rw [convert_eq_spec] at h'
    exact (convertSpec_ok h').2.2.2.1
  · intro i j stp sl r hi hj hr
    obtain ⟨ost, name, k, h1, h2, _⟩ := out_participant h hi hj
    refine ⟨ost, _, h1, h2, ?_⟩
    rw [cleanupSlotPure_refvar]
    show sl.refvar = some r
    exact hr
  · intro j sl r hj hr
    obtain ⟨name, k, h1, _⟩ := out_schemaslot h hj
    refine ⟨_, h1, ?_⟩
    show sl.refvar = some r
    exact hr

/-- Witness for C7 at the concrete schema `W2`: the refvars `v` (step
participant) and `p` (schema-level slot) survive compilation, and
`entityRelations` is empty. -/
theorem claim_C7_refvar_passthrough_witness :
    W2out.entityRelations = [] ∧
    (W2out.steps[0]?.bind (fun ost => ost.participants[0]?)).map
      (fun osl => osl.refvar) = some (some "v") ∧
    (W2out.slots[0]?).map (fun osl => osl.refvar) = some (some "p") := by
  have hc := claim_C7_refvar_passthrough W2 (fun _ => "") W2out (by rfl)
  obtain ⟨ost, osl, h1, h2, h3⟩ := hc.2.1 0 0
    { id := "s1", primitive := "P", comment := none,
      slots := [{ role := "Victim", refvar := some "v", constraints := none,
                  reference := none, comment := none },
                { role := "Helper", refvar := some "h2", constraints := none,
                  reference := none, comment := none }] }
    { role := "Victim", refvar := some "v", constraints := none,
      reference := none, comment := none }
    "v" (by rfl) (by rfl) (by rfl)
  obtain ⟨osl2, h4, h5⟩ := hc.2.2 0
    { role := "Patient", refvar := some "p", constraints := none,
      reference := none, comment := none }
    "p" (by rfl) (by rfl)
  refine ⟨hc.1, ?_, ?_⟩
  · rw [h1]
    simp only [Option.some_bind]
    rw [h2]
    simp only [Option.map_some']
    rw [h3]
  · rw [h4]
    simp only [Option.map_some']
    rw [h5]

/-- Counterexample to C9 as stated: a schema-level slot carries no `role`
field at all — `convert_yaml_to_sdf` renames it to `roleName` — so not every
canonical slot carries a `role` field. -/
theorem claim_C9_role_uri_cex :
    Except.map (fun out => out.slots.map (fun sl => sl.role))
        (convert_yaml_to_sdf (fun _ => "") schemaSlotOnly) = .ok [none] ∧
    Except.map (fun out => out.slots.map (fun sl => sl.roleName))
        (convert_yaml_to_sdf (fun _ => "") schemaSlotOnly) =
      .ok [some "cmu:T/Slots/Victim"] :=
  ⟨by rfl, by rfl⟩

/-- C9 (amended): every step participant carries
`role = {stepType}/Slots/{authored role}` (and no `roleName`); every
schema-level slot carries the same URI — with the schema id in place of a
step type — under `roleName`, and no `role` field. -/
theorem claim_C9_role_uri (s : Schema) (rng : Nat → String) (out : SDFSchema)
    (h : convert_yaml_to_sdf rng s = .ok out) :
    (∀ (i j : Nat) (stp : Step) (sl : Slot),
      s.steps[i]? = some stp → stp.slots[j]? = some sl →
      ∃ ost osl, out.steps[i]? = some ost ∧ ost.participants[j]? = some osl ∧
        osl.role = some (get_step_type stp ++ "/Slots/" ++ sl.role) ∧
        osl.roleName = none) ∧
    (∀ (j : Nat) (sl : Slot), s.slots[j]? = some sl →
      ∃ osl, out.slots[j]? = some osl ∧
        osl.roleName = some (s.schema_id ++ "/Slots/" ++ sl.role) ∧
        osl.role = none) := by
  constructor
  · intro i j stp sl hi hj
    obtain ⟨ost, name, k, h1, h2, _⟩ := out_participant h hi hj
    refine ⟨ost, _, h1, h2, ?_, ?_⟩
    · rw [cleanupSlotPure_role]
      rfl
    · rw [cleanupSlotPure_roleName]
      rfl
  · intro j sl hj
    obtain ⟨name, k, h1, _⟩ := out_schemaslot h hj
    exact ⟨_, h1, rfl, rfl⟩

/-- Witness for the amended C9 at `W2`: the step participant carries the
step-type role URI, the schema-level slot the schema-id URI under
`roleName`. -/
theorem claim_C9_role_uri_witness :
    (W2out.steps[0]?.bind (fun ost => ost.participants[0]?)).map
      (fun osl => (osl.role, osl.roleName)) =
      some (some
        "kairos:Primitives/Events/P.Unspecified.Unspecified/Slots/Victim",
        none) ∧
    (W2out.slots[0]?).map (fun osl => (osl.roleName, osl.role)) =
      some (some "cmu:T/Slots/Patient", none) := by
  have hc := claim_C9_role_uri W2 (fun _ => "") W2out (by rfl)
  obtain ⟨ost, osl, h1, h2, h3, h4⟩ := hc.1 0 0
    { id := "s1", primitive := "P", comment := none,
      slots := [{ role := "Victim", refvar := some "v", constraints := none,
                  reference := none, comment := none },
                { role := "Helper", refvar := some "h2", constraints := none,
                  reference := none, comment := none }] }
    { role := "Victim", refvar := some "v", constraints := none,
      reference := none, comment := none }
    (by rfl) (by rfl)
  obtain ⟨osl2, h5, h6, h7⟩ := hc.2 0
    { role := "Patient", refvar := some "p", constraints := none,
      reference := none, comment := none }
    (by rfl)
  refine ⟨?_, ?_⟩
  · rw [h1]
    simp only [Option.some_bind]
    rw [h2]
    simp only [Option.map_some']
    rw [h3, h4]
    rfl
  · rw [h5]
    simp only [Option.map_some']
    rw [h6, h7]
    rfl

/-- Counterexample to C8 as stated: a slot without a refvar whose role is
empty makes compilation fail (with the `get_slot_name` `IndexError`), so it
is not true that compilation never fails for refvar-less slots. -/
theorem claim_C8_missing_refvar_cex :
    ({ role := "", refvar := none, constraints := none, reference := none,
       comment := none } : Slot).refvar = none ∧
    convert_yaml_to_sdf (fun _ => "") schemaEmptyRoleNoRef =
      .error .indexError :=
  ⟨rfl, by rfl⟩

/-- C8 (amended): for every slot with a *derivable name* and no refvar,
`create_slot` does not fail: it emits a warning, advances the RNG, and
records the fresh random value in the entity map under the synthesized slot
id; distinct draws of an injective RNG supply are distinct, so two untagged
slots never silently collide in the entity map. -/
theorem claim_C8_missing_refvar (rng : Nat → String) (slot : Slot)
    (st : ConvState) (sid tp : String) (sh : Bool) (name : String)
    (hname : get_slot_name slot sh = some name) (hrv : slot.refvar = none)
    (hinj : Function.Injective rng) :
    (create_slot rng slot st sid tp sh).isSome = true ∧
    (create_slot rng slot st sid tp sh).map (fun p => p.2.warnings) =
      some (st.warnings ++ ["slot with role " ++ slot.role ++ " misses refvar"]) ∧
    (create_slot rng slot st sid tp sh).map
      (fun p => pyLookup p.2.entityMap p.1.id) = some (some (rng st.rngIdx)) ∧
    (create_slot rng slot st sid tp sh).map (fun p => p.2.rngIdx) =
      some (st.rngIdx + 1) ∧
    (∀ m, m ≠ st.rngIdx → rng m ≠ rng st.rngIdx) := by
  have hcs : create_slot rng slot st sid tp sh =
      some (mkSDFSlot sid tp slot name (st.counter name),
        { counter := bump st.counter name
          entityMap := pyInsert st.entityMap
            (mkSlotId sid name (st.counter name)) (rng st.rngIdx)
          rngIdx := st.rngIdx + 1
          warnings := st.warnings ++
            ["slot with role " ++ slot.role ++ " misses refvar"] }) := by
    unfold create_slot get_slot_id
    rw [hname, hrv]
  refine ⟨?_, ?_, ?_, ?_, fun m hm heq => hm (hinj heq)⟩
  · rw [hcs]; rfl
  · rw [hcs]; rfl
  · rw [hcs]
    show some (pyLookup (pyInsert st.entityMap
      (mkSlotId sid name (st.counter name)) (rng st.rngIdx))
      (mkSDFSlot sid tp slot name (st.counter name)).id) = _
    rw [show (mkSDFSlot sid tp slot name (st.counter name)).id =
      mkSlotId sid name (st.counter name) from rfl]
    rw [pyLookup_pyInsert_self]
  · rw [hcs]; rfl

/-- Witness for the amended C8 at concrete inputs. -/
theorem claim_C8_missing_refvar_witness :
    get_slot_name slotNoRef false = some "victim" ∧ slotNoRef.refvar = none ∧
    (create_slot rngRep slotNoRef convSt0 "cmu:T" "TY" false).isSome = true ∧
    (create_slot rngRep slotNoRef convSt0 "cmu:T" "TY" false).map
      (fun p => p.2.warnings) = some ["slot with role Victim misses refvar"] ∧
    (create_slot rngRep slotNoRef convSt0 "cmu:T" "TY" false).map
      (fun p => pyLookup p.2.entityMap p.1.id) = some (some (rngRep 0)) ∧
    (create_slot rngRep slotNoRef convSt0 "cmu:T" "TY" false).map
      (fun p => p.2.rngIdx) = some 1 ∧
    rngRep 7 ≠ rngRep 0 := by
  have hinj : Function.Injective rngRep := by
    intro a b hab
    have hl := congrArg (fun s : String => s.data.length) hab
    simpa [rngRep] using hl
  have hc := claim_C8_missing_refvar rngRep slotNoRef convSt0 "cmu:T" "TY" false
    "victim" (by rfl) rfl hinj
  exact ⟨by rfl, rfl, hc.1, hc.2.1, hc.2.2.1, hc.2.2.2.1,
    hc.2.2.2.2 7 (by decide)⟩


/-- Counterexample to C1 as stated: a schema whose order references the
undeclared id `missing-step` — so the set difference is non-empty — but that
also contains a whitespace-only slot role: the slot-name `IndexError` kills
the compilation during step processing, before the order validation runs, so
no per-missing-id error message is ever reported. -/
theorem claim_C1_order_validation_cex :
    missingOrderIds schemaWsAndMissing = ["missing-step"] ∧
    convert_yaml_to_sdf (fun _ => "") schemaWsAndMissing =
      .error .indexError ∧
    ConvErr.indexError ≠ ConvErr.missingSteps
      ((missingOrderIds schemaWsAndMissing).map (fun m =>
        "The ID " ++ m ++ " in order is not in steps")) :=
  ⟨by decide, by rfl, by decide⟩
